import Mathlib

/-!
# edutrack storage: a shallow embedding of `storage/storage.go`

The Go package `storage` keeps two in-memory maps (subjects by ID, entries by
subject ID and entry ID), mirrors them in two JSON files and keeps one body
file per entry.  This development embeds the package as pure functions over an
explicit world (in-memory `Storage` plus a file tree) and proves properties of
the facade.

Modelling conventions.

* A Go map is a key-sorted association list; `none` is the nil map.  Reading a
  nil map yields the zero value, deleting from it does nothing, writing to it
  is a run-time fault.  A facade call that faults returns `none`.
* `uuid.New()` and `time.Now()` are inputs of the call that uses them.
* The `sync.RWMutex` is not modelled: calls are taken one at a time.
* The file tree maps a path (list of segments) to a directory or a file.  A
  file holds free text or a JSON document; a document is kept as its tree, the
  textual layer of `encoding/json` (indentation, escaping) is abstracted, and
  so are the textual forms of UUIDs and timestamps inside a document.
* Every file-system call first consults a schedule of injected failures, so
  that an I/O error can hit any call.  A failing call leaves the tree as it
  was.  The tree is taken to be well formed (what lies above a node is a
  directory); a write checks the parent only.
* A Go `string` is its sequence of bytes, valid UTF-8 or not; a JSON string
  is its sequence of code points.  `json.Marshal` reads a Go string rune by
  rune and writes U+FFFD for every byte that starts no valid sequence;
  `json.Unmarshal` writes the code points back as UTF-8.
* A `time.Time` is an instant, a location and an optional monotonic clock
  reading.  A location is UTC or a zone, known by its offset (whole minutes);
  the RFC 3339 text `json.Marshal` writes keeps the instant and the offset,
  writes offset zero as `Z`, which reads back as UTC, and keeps no monotonic
  reading.  `json.MarshalIndent` succeeds on every index.
* `NewStorage` returns the storage or the error; the half-built storage Go
  returns next to an error is not modelled.
-/

namespace Edutrack

/-! ## Data model (`storage/metadata.go`) -/

/-- A `uuid.UUID`, as the 128-bit number it holds; `uuid.UUID{}` is `0`. -/
abbrev UUID := Nat

/-- A Go `string`: a sequence of bytes, not necessarily valid UTF-8. -/
abbrev GoString := List Nat

/-- Tells whether `b` is a UTF-8 continuation byte. -/
def isCont (b : Nat) : Bool := decide (0x80 ≤ b ∧ b ≤ 0xBF)

/-- The function `utf8.DecodeRuneInString`: the rune at the head of the bytes
and its width; a head that starts no valid sequence gives U+FFFD and width
one. -/
def decodeRune : List Nat → Nat × Nat
  | [] => (0xFFFD, 0)
  | b0 :: rest =>
    if b0 < 0x80 then (b0, 1)
    else if 0xC2 ≤ b0 ∧ b0 ≤ 0xDF then
      match rest with
      | b1 :: _ =>
        if isCont b1 then ((b0 - 0xC0) * 64 + (b1 - 0x80), 2) else (0xFFFD, 1)
      | [] => (0xFFFD, 1)
    else if 0xE0 ≤ b0 ∧ b0 ≤ 0xEF then
      match rest with
      | b1 :: b2 :: _ =>
        if (if b0 = 0xE0 then 0xA0 else 0x80) ≤ b1 ∧ b1 ≤ (if b0 = 0xED then 0x9F else 0xBF)
            ∧ isCont b2 = true then
          ((b0 - 0xE0) * 4096 + (b1 - 0x80) * 64 + (b2 - 0x80), 3)
        else (0xFFFD, 1)
      | _ => (0xFFFD, 1)
    else if 0xF0 ≤ b0 ∧ b0 ≤ 0xF4 then
      match rest with
      | b1 :: b2 :: b3 :: _ =>
        if (if b0 = 0xF0 then 0x90 else 0x80) ≤ b1 ∧ b1 ≤ (if b0 = 0xF4 then 0x8F else 0xBF)
            ∧ isCont b2 = true ∧ isCont b3 = true then
          ((b0 - 0xF0) * 262144 + (b1 - 0x80) * 4096 + (b2 - 0x80) * 64 + (b3 - 0x80), 4)
        else (0xFFFD, 1)
      | _ => (0xFFFD, 1)
    else (0xFFFD, 1)

/-- The function `utf8.AppendRune`: the UTF-8 bytes of a rune; a surrogate or
a rune beyond U+10FFFF is written as U+FFFD. -/
def encodeRune (r : Nat) : List Nat :=
  if r < 0x80 then [r]
  else if r < 0x800 then [0xC0 + r / 64, 0x80 + r % 64]
  else if (0xD800 ≤ r ∧ r ≤ 0xDFFF) ∨ 0x10FFFF < r then [0xEF, 0xBF, 0xBD]
  else if r < 0x10000 then [0xE0 + r / 4096, 0x80 + r / 64 % 64, 0x80 + r % 64]
  else [0xF0 + r / 262144, 0x80 + r / 4096 % 64, 0x80 + r / 64 % 64, 0x80 + r % 64]

/-- Reads at most `n` runes off the bytes, as the loop of the JSON encoder
does. -/
def toRunesAux : Nat → List Nat → List Nat
  | 0, _ => []
  | _ + 1, [] => []
  | n + 1, b :: rest =>
    (decodeRune (b :: rest)).1 :: toRunesAux n ((b :: rest).drop (decodeRune (b :: rest)).2)

/-- The code points `json.Marshal` writes for a Go string. -/
def toRunes (s : GoString) : List Nat := toRunesAux s.length s

/-- The Go string `json.Unmarshal` stores for the code points of a JSON
string. -/
def ofRunes (rs : List Nat) : GoString := (rs.map encodeRune).flatten

/-- The Go string of a text. -/
def goString (s : String) : GoString := ofRunes (s.toList.map Char.toNat)

instance : Coe String GoString := ⟨goString⟩

/-- What a Go string is after `json.Marshal` and `json.Unmarshal`: every byte
that starts no valid UTF-8 sequence has become U+FFFD. -/
def coerceUTF8 (s : GoString) : GoString := ofRunes (toRunes s)

/-- Checks at most `n` runes of the bytes, as `utf8.ValidString` does: no head
may start an invalid sequence. -/
def validUTF8Aux : Nat → List Nat → Bool
  | _, [] => true
  | 0, _ :: _ => false
  | n + 1, b :: rest =>
    !(decide ((decodeRune (b :: rest)).1 = 0xFFFD ∧ (decodeRune (b :: rest)).2 = 1))
      && validUTF8Aux n ((b :: rest).drop (decodeRune (b :: rest)).2)

/-- The function `utf8.ValidString`. -/
def validUTF8 (s : GoString) : Bool := validUTF8Aux s.length s

/-- The rune `utf8.AppendRune` writes for `r`: U+FFFD for a surrogate or a
rune beyond U+10FFFF. -/
def fixRune (r : Nat) : Nat :=
  if (0xD800 ≤ r ∧ r ≤ 0xDFFF) ∨ 0x10FFFF < r then 0xFFFD else r

/-- The location of a time: UTC, or a zone known by its offset from UTC in
minutes (the local zone of `time.Now()`, or a fixed zone). -/
inductive Loc where
  | UTC
  | Zone (offset : Int)
deriving DecidableEq, Repr

/-- The offset of a location from UTC. -/
def Loc.offset : Loc → Int
  | .UTC => 0
  | .Zone o => o

/-- A `time.Time`: the instant, the location, and the monotonic clock reading
that a value of `time.Now()` carries. -/
structure Time where
  wall : Int
  loc : Loc
  mono : Option Int
deriving DecidableEq, Repr

/-- A numeral is the instant in UTC without monotonic reading; `0` stands for
`time.Time{}`. -/
instance (n : Nat) : OfNat Time n := ⟨⟨n, .UTC, none⟩⟩

/-- What a time is after `json.Marshal` and `json.Unmarshal`: the instant is
kept, offset zero reads back as UTC, the monotonic reading is gone. -/
def Time.asStored (t : Time) : Time :=
  ⟨t.wall, if t.loc.offset = 0 then .UTC else .Zone t.loc.offset, none⟩

/-- The Go struct `Subject`. -/
structure Subject where
  ID : UUID
  Name : GoString
  Description : GoString
deriving DecidableEq, Repr

/-- The Go struct `Entry`. -/
structure Entry where
  ID : UUID
  Title : GoString
  CreatedAt : Time
  UpdatedAt : Time
deriving DecidableEq, Repr

/-- What a subject is after `json.Marshal` and `json.Unmarshal`. -/
def Subject.asStored (s : Subject) : Subject :=
  ⟨s.ID, coerceUTF8 s.Name, coerceUTF8 s.Description⟩

/-- What an entry is after `json.Marshal` and `json.Unmarshal`. -/
def Entry.asStored (e : Entry) : Entry :=
  ⟨e.ID, coerceUTF8 e.Title, e.CreatedAt.asStored, e.UpdatedAt.asStored⟩

/-- A time that RFC 3339 text gives back as it is: no monotonic reading, and
not in a zone of offset zero other than UTC. -/
def Time.Plain (t : Time) : Prop := t.mono = none ∧ t.loc ≠ .Zone 0

/-- A subject whose strings are valid UTF-8. -/
def Subject.Plain (s : Subject) : Prop :=
  validUTF8 s.Name = true ∧ validUTF8 s.Description = true

/-- An entry whose title is valid UTF-8 and whose times are plain. -/
def Entry.Plain (e : Entry) : Prop :=
  validUTF8 e.Title = true ∧ e.CreatedAt.Plain ∧ e.UpdatedAt.Plain

/-- The items of a non-nil Go map keyed by UUID. -/
abbrev Items (V : Type) := List (UUID × V)

/-- A Go map keyed by UUID; `none` is the nil map. -/
abbrev GoMap (V : Type) := Option (Items V)

namespace Items

/-- Reads `m[k]` with the comma-ok idiom. -/
def get {V : Type} : Items V → UUID → Option V
  | [], _ => none
  | (k', v) :: t, k => if k = k' then some v else get t k

/-- Performs `m[k] = v` on a non-nil map, keeping the keys ascending. -/
def put {V : Type} (k : UUID) (v : V) : Items V → Items V
  | [] => [(k, v)]
  | (k', v') :: t =>
    if k < k' then (k, v) :: (k', v') :: t
    else if k = k' then (k, v) :: t
    else (k', v') :: put k v t

/-- Performs `delete(m, k)` on a non-nil map. -/
def del {V : Type} (k : UUID) : Items V → Items V
  | [] => []
  | (k', v) :: t => if k' = k then del k t else (k', v) :: del k t

/-- The values of the map, as `range` visits them. -/
def values {V : Type} (m : Items V) : List V := m.map Prod.snd

/-- Keys strictly ascending: the canonical form of a map. -/
def Sorted {V : Type} (m : Items V) : Prop := m.Pairwise (fun a b => a.1 < b.1)

end Items

namespace GoMap

/-- Reads `m[k]`; a nil map has no key. -/
def get {V : Type} (m : GoMap V) (k : UUID) : Option V :=
  match m with
  | none => none
  | some l => Items.get l k

/-- Tells whether `k` is a key of `m`. -/
def has {V : Type} (m : GoMap V) (k : UUID) : Bool := (get m k).isSome

/-- Performs `delete(m, k)`; on a nil map it does nothing. -/
def del {V : Type} (k : UUID) (m : GoMap V) : GoMap V :=
  match m with
  | none => none
  | some l => some (Items.del k l)

/-- The values of the map; a nil map has none. -/
def values {V : Type} (m : GoMap V) : List V :=
  match m with
  | none => []
  | some l => Items.values l

end GoMap

/-- Applies `f` to every value of the map. -/
def GoMap.mapValues {V : Type} (f : V → V) : GoMap V → GoMap V
  | none => none
  | some l => some (l.map (fun p => (p.1, f p.2)))

/-- The Go struct `SubjectsMetadata`. -/
structure SubjectsMetadata where
  Subjects : GoMap Subject
deriving DecidableEq, Repr

/-- The Go struct `EntriesMetadata`. -/
structure EntriesMetadata where
  Entries : GoMap (GoMap Entry)
deriving DecidableEq, Repr

/-- What the subjects metadata is after `json.Marshal` and
`json.Unmarshal`. -/
def SubjectsMetadata.asStored (m : SubjectsMetadata) : SubjectsMetadata :=
  ⟨GoMap.mapValues Subject.asStored m.Subjects⟩

/-- What the entries metadata is after `json.Marshal` and `json.Unmarshal`. -/
def EntriesMetadata.asStored (m : EntriesMetadata) : EntriesMetadata :=
  ⟨GoMap.mapValues (GoMap.mapValues Entry.asStored) m.Entries⟩

/-! ## Errors -/

/-- Failures of the operating system calls. -/
inductive Errno where
  | ENOENT
  | ENOTDIR
  | EISDIR
  | EACCES
deriving DecidableEq, Repr

/-- The errors a facade call can return: the three package-level values
`ErrNotDirectory`, `ErrNoSubject`, `ErrNoEntry`, an error of the operating
system, or an error of `encoding/json`. -/
inductive Error where
  | ErrNotDirectory
  | ErrNoSubject
  | ErrNoEntry
  | os (e : Errno)
  | json
deriving DecidableEq, Repr

/-- The Go test `os.IsNotExist(err)`. -/
def isNotExist : Errno → Bool
  | .ENOENT => true
  | _ => false

/-! ## JSON documents (`encoding/json`)

Leaves carry the tag of what the encoder wrote: `str` for a string field
(its code points), `id` for the text of a UUID (also as an object key), `time`
for the RFC 3339 text of a timestamp (its instant and offset).  A decoder accepts at each position the tag the encoder writes
there, or `null`, and rejects the others; unknown object keys are skipped. -/

/-- An object key: a field name or the text of a UUID. -/
inductive Key where
  | field (name : String)
  | id (u : UUID)
deriving DecidableEq, Repr

/-- A JSON document. -/
inductive JSON where
  | null
  | str (runes : List Nat)
  | id (u : UUID)
  | time (instant : Int) (offset : Int)
  | obj (members : List (Key × JSON))

/-- The encoding of a Go string: its code points, U+FFFD for invalid bytes. -/
def encodeString (s : GoString) : JSON := .str (toRunes s)

/-- The encoding of a time (`Time.MarshalJSON`): instant and offset. -/
def encodeTime (t : Time) : JSON := .time t.wall t.loc.offset

/-- The time `Time.UnmarshalJSON` reads from RFC 3339 text. -/
def decodeTime (instant offset : Int) : Time :=
  ⟨instant, if offset = 0 then .UTC else .Zone offset, none⟩

/-- The encoding of a `Subject`. -/
def encodeSubject (s : Subject) : JSON :=
  .obj [(.field "ID", .id s.ID), (.field "Name", encodeString s.Name),
        (.field "Description", encodeString s.Description)]

/-- The encoding of an `Entry`. -/
def encodeEntry (e : Entry) : JSON :=
  .obj [(.field "ID", .id e.ID), (.field "Title", encodeString e.Title),
        (.field "CreatedAt", encodeTime e.CreatedAt),
        (.field "UpdatedAt", encodeTime e.UpdatedAt)]

/-- The encoding of a map: `null` for the nil map, else an object with one
member per key, in key order. -/
def encodeMap {V : Type} (enc : V → JSON) : GoMap V → JSON
  | none => .null
  | some l => .obj (l.map (fun p => (Key.id p.1, enc p.2)))

/-- The document `json.MarshalIndent` produces for a `SubjectsMetadata`. -/
def marshalSubjects (m : SubjectsMetadata) : JSON :=
  .obj [(.field "Subjects", encodeMap encodeSubject m.Subjects)]

/-- The document `json.MarshalIndent` produces for an `EntriesMetadata`. -/
def marshalEntries (m : EntriesMetadata) : JSON :=
  .obj [(.field "Entries", encodeMap (encodeMap encodeEntry) m.Entries)]

/-- Decodes one member of an object into a `Subject`. -/
def decodeSubjectField (s : Subject) : Key × JSON → Except Error Subject
  | (.field "ID", .id u) => .ok { s with ID := u }
  | (.field "ID", .null) => .ok s
  | (.field "ID", _) => .error .json
  | (.field "Name", .str x) => .ok { s with Name := ofRunes x }
  | (.field "Name", .null) => .ok s
  | (.field "Name", _) => .error .json
  | (.field "Description", .str x) => .ok { s with Description := ofRunes x }
  | (.field "Description", .null) => .ok s
  | (.field "Description", _) => .error .json
  | _ => .ok s

/-- Decodes a document into a zero `Subject`. -/
def decodeSubject : JSON → Except Error Subject
  | .null => .ok ⟨0, [], []⟩
  | .obj ms => ms.foldlM decodeSubjectField ⟨0, [], []⟩
  | _ => .error .json

/-- Decodes one member of an object into an `Entry`. -/
def decodeEntryField (e : Entry) : Key × JSON → Except Error Entry
  | (.field "ID", .id u) => .ok { e with ID := u }
  | (.field "ID", .null) => .ok e
  | (.field "ID", _) => .error .json
  | (.field "Title", .str x) => .ok { e with Title := ofRunes x }
  | (.field "Title", .null) => .ok e
  | (.field "Title", _) => .error .json
  | (.field "CreatedAt", .time i o) => .ok { e with CreatedAt := decodeTime i o }
  | (.field "CreatedAt", .null) => .ok e
  | (.field "CreatedAt", _) => .error .json
  | (.field "UpdatedAt", .time i o) => .ok { e with UpdatedAt := decodeTime i o }
  | (.field "UpdatedAt", .null) => .ok e
  | (.field "UpdatedAt", _) => .error .json
  | _ => .ok e

/-- Decodes a document into a zero `Entry`. -/
def decodeEntry : JSON → Except Error Entry
  | .null => .ok ⟨0, [], 0, 0⟩
  | .obj ms => ms.foldlM decodeEntryField ⟨0, [], 0, 0⟩
  | _ => .error .json

/-- Decodes one member of an object into a map: the key must be the text of a
UUID, the value is decoded into a fresh zero value and stored under the key. -/
def decodeItem {V : Type} (dec : JSON → Except Error V) (acc : Items V) :
    Key × JSON → Except Error (Items V)
  | (.id k, j) =>
    match dec j with
    | .ok v => .ok (Items.put k v acc)
    | .error e => .error e
  | (.field _, _) => .error .json

/-- Decodes a document into the map `cur`: `null` sets the nil map, an object
is stored member by member into `cur` (made first when nil). -/
def decodeMap {V : Type} (dec : JSON → Except Error V) (cur : GoMap V) :
    JSON → Except Error (GoMap V)
  | .null => .ok none
  | .obj ms =>
    match ms.foldlM (decodeItem dec) (cur.getD []) with
    | .ok l => .ok (some l)
    | .error e => .error e
  | _ => .error .json

/-- Decodes one member of an object into a `SubjectsMetadata`. -/
def decodeSubjectsField (m : SubjectsMetadata) : Key × JSON → Except Error SubjectsMetadata
  | (.field "Subjects", j) =>
    match decodeMap decodeSubject m.Subjects j with
    | .ok s => .ok ⟨s⟩
    | .error e => .error e
  | _ => .ok m

/-- Decodes one member of an object into an `EntriesMetadata`. -/
def decodeEntriesField (m : EntriesMetadata) : Key × JSON → Except Error EntriesMetadata
  | (.field "Entries", j) =>
    match decodeMap (decodeMap decodeEntry none) m.Entries j with
    | .ok s => .ok ⟨s⟩
    | .error e => .error e
  | _ => .ok m

/-- The Go call `json.Unmarshal(data, &SubjectsMetadata{})` on a document. -/
def unmarshalSubjects : JSON → Except Error SubjectsMetadata
  | .null => .ok ⟨none⟩
  | .obj ms => ms.foldlM decodeSubjectsField ⟨none⟩
  | _ => .error .json

/-- The Go call `json.Unmarshal(data, &EntriesMetadata{})` on a document. -/
def unmarshalEntries : JSON → Except Error EntriesMetadata
  | .null => .ok ⟨none⟩
  | .obj ms => ms.foldlM decodeEntriesField ⟨none⟩
  | _ => .error .json

/-! ## File tree (`os`, `io`, `path`) -/

/-- The contents of a file: free text (bytes), or a JSON document. -/
inductive Data where
  | text (s : GoString)
  | doc (j : JSON)

/-- What sits at a path. -/
inductive Node where
  | dir
  | file (d : Data)

/-- A path, as its list of segments; `path.Join` appends segments. -/
abbrev Path := List String

/-- The file tree, with the schedule of injected failures: the head of
`faults` tells whether the next call fails with an I/O error. -/
structure FS where
  nodes : Path → Option Node
  faults : List Bool

namespace FS

/-- Tells whether the next call is hit by an injected failure. -/
def fails (fs : FS) : Bool := fs.faults.headD false

/-- The tree once the next call has consulted the schedule. -/
def next (fs : FS) : FS := { fs with faults := fs.faults.tail }

/-- Tells whether a regular file sits at `p`. -/
def isFile (fs : FS) (p : Path) : Bool :=
  match fs.nodes p with
  | some (.file _) => true
  | _ => false

end FS

/-- The Go method `info.IsDir()`. -/
def Node.IsDir : Node → Bool
  | .dir => true
  | .file _ => false

/-- The call `os.Stat(p)`. -/
def osStat (fs : FS) (p : Path) : FS × Except Errno Node :=
  if fs.fails then (fs.next, .error .EACCES)
  else match fs.nodes p with
    | none => (fs.next, .error .ENOENT)
    | some n => (fs.next, .ok n)

/-- The call `os.MkdirAll(p, 0755)`: fails when a file sits at `p` or above
it, else makes `p` and every missing directory above it. -/
def osMkdirAll (fs : FS) (p : Path) : FS × Option Errno :=
  if fs.fails then (fs.next, some .EACCES)
  else if p.inits.any (fun q => fs.isFile q) then (fs.next, some .ENOTDIR)
  else ({ nodes := fun q => if q <+: p then some .dir else fs.nodes q,
          faults := fs.faults.tail }, none)

/-- Stores `d` at `p`, provided `p` is not a directory and its parent is
one. -/
def storeFile (fs : FS) (p : Path) (d : Data) : FS × Option Errno :=
  match fs.nodes p with
  | some .dir => (fs.next, some .EISDIR)
  | _ =>
    match fs.nodes p.dropLast with
    | some .dir =>
      ({ nodes := fun q => if q = p then some (.file d) else fs.nodes q,
         faults := fs.faults.tail }, none)
    | some (.file _) => (fs.next, some .ENOTDIR)
    | none => (fs.next, some .ENOENT)

/-- The call `os.WriteFile(p, d, perm)`: creates or truncates the file. -/
def osWriteFile (fs : FS) (p : Path) (d : Data) : FS × Option Errno :=
  if fs.fails then (fs.next, some .EACCES) else storeFile fs p d

/-- The call `os.OpenFile(p, os.O_CREATE, 0644)` followed by `Close`: an
existing file is left as it is, a missing one is created empty. -/
def osOpenFileCreate (fs : FS) (p : Path) : FS × Option Errno :=
  if fs.fails then (fs.next, some .EACCES)
  else match fs.nodes p with
    | some (.file _) => (fs.next, none)
    | _ => storeFile fs p (.text [])

/-- The call `os.Open(p)`; the handle is the node found. -/
def osOpen (fs : FS) (p : Path) : FS × Except Errno Node :=
  if fs.fails then (fs.next, .error .EACCES)
  else match fs.nodes p with
    | none => (fs.next, .error .ENOENT)
    | some n => (fs.next, .ok n)

/-- The call `io.ReadAll(f)` on an open handle. -/
def ioReadAll (fs : FS) (f : Node) : FS × Except Errno Data :=
  if fs.fails then (fs.next, .error .EACCES)
  else match f with
    | .dir => (fs.next, .error .EISDIR)
    | .file d => (fs.next, .ok d)

/-- The call `os.RemoveAll(p)`: removes `p` and everything below it; a missing
`p` is no error. -/
def osRemoveAll (fs : FS) (p : Path) : FS × Option Errno :=
  if fs.fails then (fs.next, some .EACCES)
  else ({ nodes := fun q => if p <+: q then none else fs.nodes q,
          faults := fs.faults.tail }, none)

/-- One lower-case hexadecimal digit: `0`..`9` sit at code 48 on, `a`..`f` at
code 97 on. -/
def hexDigit (n : Nat) : Char :=
  if n % 16 < 10 then Char.ofNat (48 + n % 16) else Char.ofNat (87 + n % 16)

/-- The lowest `width` hexadecimal digits of `n`, most significant first. -/
def hexField (width n : Nat) : String :=
  String.mk ((List.range width).reverse.map (fun i => hexDigit (n / 16 ^ i)))

/-- The method `id.String()`: the canonical text `xxxxxxxx-xxxx-xxxx-xxxx-xxxxxxxxxxxx`. -/
def uuidString (u : UUID) : String :=
  hexField 8 (u / 2 ^ 96) ++ "-" ++ hexField 4 (u / 2 ^ 80) ++ "-" ++ hexField 4 (u / 2 ^ 64)
    ++ "-" ++ hexField 4 (u / 2 ^ 48) ++ "-" ++ hexField 12 u

/-! ## The storage (`storage/storage.go`) -/

/-- The Go struct `Storage`, once `NewStorage` has set both metadata fields. -/
structure Storage where
  storageRoot : Path
  subjectsMetadata : SubjectsMetadata
  entriesMetadata : EntriesMetadata

/-- The storage as a restart on its flushed files rebuilds it. -/
def Storage.asStored (st : Storage) : Storage :=
  ⟨st.storageRoot, st.subjectsMetadata.asStored, st.entriesMetadata.asStored⟩

/-- Every string of the index is valid UTF-8 and every time is plain. -/
def Storage.Plain (st : Storage) : Prop :=
  (∀ l, st.subjectsMetadata.Subjects = some l → ∀ p ∈ l, p.2.Plain) ∧
  (∀ l, st.entriesMetadata.Entries = some l → ∀ p ∈ l, ∀ m, p.2 = some m →
    ∀ q ∈ m, q.2.Plain)

/-- The in-memory storage together with the file tree it works on. -/
structure World where
  st : Storage
  fs : FS

/-- The path of `metadata/subjects.json` under the root. -/
def subjectsPath (root : Path) : Path := root ++ ["metadata", "subjects.json"]

/-- The path of `metadata/entries.json` under the root. -/
def entriesPath (root : Path) : Path := root ++ ["metadata", "entries.json"]

/-- The directory of a subject's entries. -/
def subjectDir (root : Path) (subjectID : UUID) : Path :=
  root ++ ["entries", uuidString subjectID]

/-- The directory of one entry. -/
def entryDir (root : Path) (subjectID id : UUID) : Path :=
  root ++ ["entries", uuidString subjectID, uuidString id]

/-- The body file of one entry. -/
def contentPath (root : Path) (subjectID id : UUID) : Path :=
  entryDir root subjectID id ++ ["CONTENT.md"]

/-- The method `flushMetadata`: writes the subjects document, then the
entries document; the first failing write ends it. -/
def flushMetadata (w : World) : World × Option Error :=
  match osWriteFile w.fs (subjectsPath w.st.storageRoot)
      (.doc (marshalSubjects w.st.subjectsMetadata)) with
  | (fs1, some e) => (⟨w.st, fs1⟩, some (.os e))
  | (fs1, none) =>
    match osWriteFile fs1 (entriesPath w.st.storageRoot)
        (.doc (marshalEntries w.st.entriesMetadata)) with
    | (fs2, some e) => (⟨w.st, fs2⟩, some (.os e))
    | (fs2, none) => (⟨w.st, fs2⟩, none)

/-- The call `json.Unmarshal(data, s.subjectsMetadata)` on the bytes of a
file; free text is not a document. -/
def unmarshalSubjectsData : Data → Except Error SubjectsMetadata
  | .doc j => unmarshalSubjects j
  | .text _ => .error .json

/-- The call `json.Unmarshal(data, s.entriesMetadata)` on the bytes of a
file. -/
def unmarshalEntriesData : Data → Except Error EntriesMetadata
  | .doc j => unmarshalEntries j
  | .text _ => .error .json

/-- The method `readSubjects`: a missing file is created as `{}` and gives the
empty map, an existing one is decoded.  Returns the value assigned to
`s.subjectsMetadata`. -/
def readSubjects (fs : FS) (root : Path) : FS × Except Error SubjectsMetadata :=
  match osOpen fs (subjectsPath root) with
  | (fs1, .error e) =>
    if isNotExist e then
      match osWriteFile fs1 (subjectsPath root) (.doc (.obj [])) with
      | (fs2, some e2) => (fs2, .error (.os e2))
      | (fs2, none) => (fs2, .ok ⟨some []⟩)
    else (fs1, .error (.os e))
  | (fs1, .ok f) =>
    match ioReadAll fs1 f with
    | (fs2, .error e) => (fs2, .error (.os e))
    | (fs2, .ok data) => (fs2, unmarshalSubjectsData data)

/-- The method `readEntries`: a missing file is created as `{}` and gives the
empty map; an existing one is decoded first into `s.subjectsMetadata`, then
into `s.entriesMetadata`.  Returns the value assigned to `s.subjectsMetadata`
(`none` when the field is not touched) and the one assigned to
`s.entriesMetadata`. -/
def readEntries (fs : FS) (root : Path) :
    FS × Except Error (Option SubjectsMetadata × EntriesMetadata) :=
  match osOpen fs (entriesPath root) with
  | (fs1, .error e) =>
    if isNotExist e then
      match osWriteFile fs1 (entriesPath root) (.doc (.obj [])) with
      | (fs2, some e2) => (fs2, .error (.os e2))
      | (fs2, none) => (fs2, .ok (none, ⟨some []⟩))
    else (fs1, .error (.os e))
  | (fs1, .ok f) =>
    match ioReadAll fs1 f with
    | (fs2, .error e) => (fs2, .error (.os e))
    | (fs2, .ok data) =>
      match unmarshalSubjectsData data with
      | .error e => (fs2, .error e)
      | .ok sm =>
        match unmarshalEntriesData data with
        | .error e => (fs2, .error e)
        | .ok em => (fs2, .ok (some sm, em))

/-- The method `reloadMetadata`: `readEntries`, then `readSubjects`, whose
assignment to `s.subjectsMetadata` is the last one.  Returns the two metadata
fields as they stand at the end; on failure only the error. -/
def reloadMetadata (fs : FS) (root : Path) :
    FS × Except Error (SubjectsMetadata × EntriesMetadata) :=
  match readEntries fs root with
  | (fs1, .error e) => (fs1, .error e)
  | (fs1, .ok (_, em)) =>
    match readSubjects fs1 root with
    | (fs2, .error e) => (fs2, .error e)
    | (fs2, .ok sm) => (fs2, .ok (sm, em))

/-- The tail of `NewStorage`, from the `IsDir` test on. -/
def newStorageLoad (fs : FS) (rootPath : Path) (info : Node) : FS × Except Error Storage :=
  if !info.IsDir then (fs, .error .ErrNotDirectory)
  else match reloadMetadata fs rootPath with
    | (fs1, .error e) => (fs1, .error e)
    | (fs1, .ok (sm, em)) =>
      match flushMetadata ⟨⟨rootPath, sm, em⟩, fs1⟩ with
      | (w, some e) => (w.fs, .error e)
      | (w, none) => (w.fs, .ok w.st)

/-- The function `NewStorage`.  A storage returned together with an error is
not used, so only the error is kept. -/
def NewStorage (fs : FS) (rootPath : Path) : FS × Except Error Storage :=
  match osStat fs rootPath with
  | (fs1, .ok info) => newStorageLoad fs1 rootPath info
  | (fs1, .error e) =>
    if isNotExist e then
      match osMkdirAll fs1 rootPath with
      | (fs2, some e2) => (fs2, .error (.os e2))
      | (fs2, none) =>
        match osMkdirAll fs2 (rootPath ++ ["entries"]) with
        | (fs3, some e3) => (fs3, .error (.os e3))
        | (fs3, none) =>
          match osMkdirAll fs3 (rootPath ++ ["metadata"]) with
          | (fs4, some e4) => (fs4, .error (.os e4))
          | (fs4, none) =>
            match osStat fs4 rootPath with
            | (fs5, .error e5) => (fs5, .error (.os e5))
            | (fs5, .ok info) => newStorageLoad fs5 rootPath info
    else (fs1, .error (.os e))

/-! ### Reading and writing the two-level entries map -/

/-- Reads `m[subjectID][id]` with the comma-ok idiom. -/
def getEntry (m : GoMap (GoMap Entry)) (subjectID id : UUID) : Option Entry :=
  match GoMap.get m subjectID with
  | some (some inner) => Items.get inner id
  | _ => none

/-- Performs `m[subjectID][id] = e`: the inner map is updated in place; when
it is nil (also because `subjectID` is no key of `m`) the write faults. -/
def setEntry (m : GoMap (GoMap Entry)) (subjectID id : UUID) (e : Entry) :
    Option (GoMap (GoMap Entry)) :=
  match m with
  | none => none
  | some outer =>
    match Items.get outer subjectID with
    | some (some inner) => some (some (Items.put subjectID (some (Items.put id e inner)) outer))
    | _ => none

/-- Performs `delete(m[subjectID], id)`: the inner map is updated in place; on
a nil inner map nothing happens. -/
def delEntry (m : GoMap (GoMap Entry)) (subjectID id : UUID) : GoMap (GoMap Entry) :=
  match m with
  | none => none
  | some outer =>
    match Items.get outer subjectID with
    | some (some inner) => some (Items.put subjectID (some (Items.del id inner)) outer)
    | _ => some outer

/-! ### The facade -/

/-- The method `SubjectExists`. -/
def SubjectExists (st : Storage) (id : UUID) : Bool :=
  GoMap.has st.subjectsMetadata.Subjects id

/-- The method `ListSubjects`. -/
def ListSubjects (st : Storage) : List Subject :=
  GoMap.values st.subjectsMetadata.Subjects

/-- The method `ListEntries`; the nil slice is the empty list. -/
def ListEntries (st : Storage) (subjectID : UUID) : List Entry :=
  if !SubjectExists st subjectID then []
  else match GoMap.get st.entriesMetadata.Entries subjectID with
    | some inner => GoMap.values inner
    | none => []

/-- The method `EntryExists`. -/
def EntryExists (st : Storage) (subjectID id : UUID) : Bool :=
  if !SubjectExists st subjectID then false
  else (getEntry st.entriesMetadata.Entries subjectID id).isSome

/-- The method `NewSubject`; `id` is the value of `uuid.New()`. -/
def NewSubject (w : World) (id : UUID) (name description : GoString) :
    Option (World × UUID × Option Error) :=
  match w.st.subjectsMetadata.Subjects with
  | none => none
  | some sm =>
    match w.st.entriesMetadata.Entries with
    | none => none
    | some em =>
      let r := flushMetadata
        ⟨{ w.st with
            subjectsMetadata := ⟨some (Items.put id ⟨id, name, description⟩ sm)⟩
            entriesMetadata := ⟨some (Items.put id (some []) em)⟩ }, w.fs⟩
      some (r.1, id, r.2)

/-- The method `RemoveSubject`. -/
def RemoveSubject (w : World) (id : UUID) : Option (World × Option Error) :=
  if !SubjectExists w.st id then some (w, some .ErrNoSubject)
  else
    let st1 : Storage :=
      { w.st with
        subjectsMetadata := ⟨GoMap.del id w.st.subjectsMetadata.Subjects⟩
        entriesMetadata := ⟨GoMap.del id w.st.entriesMetadata.Entries⟩ }
    match osRemoveAll w.fs (subjectDir w.st.storageRoot id) with
    | (fs1, some e) => some (⟨st1, fs1⟩, some (.os e))
    | (fs1, none) => some (flushMetadata ⟨st1, fs1⟩)

/-- The method `UpdateSubject`. -/
def UpdateSubject (w : World) (id : UUID) (data : Subject) : Option (World × Option Error) :=
  if !SubjectExists w.st id then some (w, some .ErrNoSubject)
  else match w.st.subjectsMetadata.Subjects with
    | none => none
    | some sm =>
      some (flushMetadata
        ⟨{ w.st with subjectsMetadata := ⟨some (Items.put id { data with ID := id } sm)⟩ }, w.fs⟩)

/-- The method `NewEntry`; `id` is the value of `uuid.New()`, `now1` and
`now2` are the values of the two calls of `time.Now()`. -/
def NewEntry (w : World) (subjectID : UUID) (title : GoString) (id : UUID) (now1 now2 : Time) :
    Option (World × UUID × Option Error) :=
  if !SubjectExists w.st subjectID then some (w, 0, some .ErrNoSubject)
  else match setEntry w.st.entriesMetadata.Entries subjectID id ⟨id, title, now1, now2⟩ with
    | none => none
    | some em =>
      let st1 : Storage := { w.st with entriesMetadata := ⟨em⟩ }
      match osMkdirAll w.fs (entryDir w.st.storageRoot subjectID id) with
      | (fs1, some e) => some (⟨st1, fs1⟩, id, some (.os e))
      | (fs1, none) =>
        match osOpenFileCreate fs1 (contentPath w.st.storageRoot subjectID id) with
        | (fs2, some e) => some (⟨st1, fs2⟩, id, some (.os e))
        | (fs2, none) =>
          let r := flushMetadata ⟨st1, fs2⟩
          some (r.1, id, r.2)

/-- The method `UpdateEntryBody`; `now` is the value of `time.Now()`. -/
def UpdateEntryBody (w : World) (subjectID id : UUID) (data : GoString) (now : Time) :
    Option (World × Option Error) :=
  if !SubjectExists w.st subjectID then some (w, some .ErrNoSubject)
  else if !EntryExists w.st subjectID id then some (w, some .ErrNoEntry)
  else
    let entry := (getEntry w.st.entriesMetadata.Entries subjectID id).getD ⟨0, [], 0, 0⟩
    match setEntry w.st.entriesMetadata.Entries subjectID id { entry with UpdatedAt := now } with
    | none => none
    | some em =>
      match flushMetadata ⟨{ w.st with entriesMetadata := ⟨em⟩ }, w.fs⟩ with
      | (w1, some e) => some (w1, some e)
      | (w1, none) =>
        match osWriteFile w1.fs (contentPath w.st.storageRoot subjectID id) (.text data) with
        | (fs2, some e) => some (⟨w1.st, fs2⟩, some (.os e))
        | (fs2, none) => some (⟨w1.st, fs2⟩, none)

/-- The method `UpdateEntryMetadata`; `now` is the value of `time.Now()`. -/
def UpdateEntryMetadata (w : World) (subjectID id : UUID) (entry : Entry) (now : Time) :
    Option (World × Option Error) :=
  if !SubjectExists w.st subjectID then some (w, some .ErrNoSubject)
  else if !EntryExists w.st subjectID id then some (w, some .ErrNoEntry)
  else
    let oldEntry := (getEntry w.st.entriesMetadata.Entries subjectID id).getD ⟨0, [], 0, 0⟩
    match setEntry w.st.entriesMetadata.Entries subjectID id
        { oldEntry with Title := entry.Title, UpdatedAt := now } with
    | none => none
    | some em => some (flushMetadata ⟨{ w.st with entriesMetadata := ⟨em⟩ }, w.fs⟩)

/-- The method `DeleteEntry`. -/
def DeleteEntry (w : World) (subjectID id : UUID) : Option (World × Option Error) :=
  if !SubjectExists w.st subjectID then some (w, some .ErrNoSubject)
  else if !EntryExists w.st subjectID id then some (w, some .ErrNoEntry)
  else
    match flushMetadata
        ⟨{ w.st with entriesMetadata := ⟨delEntry w.st.entriesMetadata.Entries subjectID id⟩ },
          w.fs⟩ with
    | (w1, some e) => some (w1, some e)
    | (w1, none) =>
      match osRemoveAll w1.fs (entryDir w.st.storageRoot subjectID id) with
      | (fs2, some e) => some (⟨w1.st, fs2⟩, some (.os e))
      | (fs2, none) => some (⟨w1.st, fs2⟩, none)

/-- The two JSON files hold the encodings of the two in-memory maps. -/
def Mirrored (w : World) : Prop :=
  w.fs.nodes (subjectsPath w.st.storageRoot)
      = some (.file (.doc (marshalSubjects w.st.subjectsMetadata))) ∧
  w.fs.nodes (entriesPath w.st.storageRoot)
      = some (.file (.doc (marshalEntries w.st.entriesMetadata)))

/-! ### Sequences of facade calls -/

/-- One facade call with its arguments, the generated IDs and the clock
readings included. -/
inductive Call where
  | NewSubject (id : UUID) (name description : GoString)
  | ListSubjects
  | SubjectExists (id : UUID)
  | RemoveSubject (id : UUID)
  | UpdateSubject (id : UUID) (data : Subject)
  | NewEntry (subjectID : UUID) (title : GoString) (id : UUID) (now1 now2 : Time)
  | ListEntries (subjectID : UUID)
  | EntryExists (subjectID id : UUID)
  | UpdateEntryBody (subjectID id : UUID) (data : GoString) (now : Time)
  | UpdateEntryMetadata (subjectID id : UUID) (entry : Entry) (now : Time)
  | DeleteEntry (subjectID id : UUID)

/-- The world after one call, whatever it returned; `none` when it faults. -/
def step (w : World) : Call → Option World
  | .NewSubject id name description => (NewSubject w id name description).map Prod.fst
  | .ListSubjects => some w
  | .SubjectExists _ => some w
  | .RemoveSubject id => (RemoveSubject w id).map Prod.fst
  | .UpdateSubject id data => (UpdateSubject w id data).map Prod.fst
  | .NewEntry subjectID title id now1 now2 =>
    (NewEntry w subjectID title id now1 now2).map Prod.fst
  | .ListEntries _ => some w
  | .EntryExists _ _ => some w
  | .UpdateEntryBody subjectID id data now =>
    (UpdateEntryBody w subjectID id data now).map Prod.fst
  | .UpdateEntryMetadata subjectID id entry now =>
    (UpdateEntryMetadata w subjectID id entry now).map Prod.fst
  | .DeleteEntry subjectID id => (DeleteEntry w subjectID id).map Prod.fst

/-- The world after a sequence of calls; `none` when one of them faults. -/
def run : World → List Call → Option World
  | w, [] => some w
  | w, c :: cs =>
    match step w c with
    | none => none
    | some w1 => run w1 cs

/-- The storage with both maps made and empty, as `NewStorage` leaves it on a
fresh root. -/
def emptyStorage (root : Path) : Storage := ⟨root, ⟨some []⟩, ⟨some []⟩⟩

/-- Both maps are made, they have the same keys, and no subject has a nil
entry map. -/
def Consistent (st : Storage) : Prop :=
  ∃ sm em, st.subjectsMetadata.Subjects = some sm ∧ st.entriesMetadata.Entries = some em ∧
    ∀ k, ((Items.get em k).isSome = true → (Items.get sm k).isSome = true) ∧
      ((Items.get sm k).isSome = true → ∃ inner, Items.get em k = some (some inner))

/-- A map in canonical form: nil, or with its keys strictly ascending. -/
def GoMap.Sorted {V : Type} (m : GoMap V) : Prop := ∀ l, m = some l → Items.Sorted l

/-- Both maps of the storage, and every entry map inside, are in canonical
form.  Every Go map has exactly one canonical representation, and the facade
calls keep the form (`step_canonical`, `reachable_canonical`). -/
def Canonical (st : Storage) : Prop :=
  GoMap.Sorted st.subjectsMetadata.Subjects ∧ GoMap.Sorted st.entriesMetadata.Entries ∧
    ∀ l, st.entriesMetadata.Entries = some l → ∀ p ∈ l, GoMap.Sorted p.2

/-! ### Worlds for the examples -/

/-- A world for the examples: root `data` with its two subdirectories, no
subject, the two JSON files not yet written, no failure scheduled. -/
def world0 : World :=
  ⟨⟨["data"], ⟨some []⟩, ⟨some []⟩⟩,
   ⟨fun q => if q = [] ∨ q = ["data"] ∨ q = ["data", "metadata"] ∨ q = ["data", "entries"]
      then some .dir else none, []⟩⟩

/-- The world after `NewSubject("Math", "desc")` with generated ID `1` in
`world0`. -/
def world1 : World :=
  ((NewSubject world0 1 "Math" "desc").map Prod.fst).getD world0

/-- The world after `NewEntry(1, "Notes")` with generated ID `7` and clock
readings `100` and `101` in `world1`. -/
def world2 : World :=
  ((NewEntry world1 1 "Notes" 7 100 101).map Prod.fst).getD world1

/-- The world after `RemoveSubject(1)` in `world2`. -/
def world3 : World :=
  ((RemoveSubject world2 1).map Prod.fst).getD world2

/-- A file tree whose `subjects.json` lists subject `1` while `entries.json`
is missing. -/
def diskA : FS :=
  ⟨fun q =>
    if q = [] ∨ q = ["data"] ∨ q = ["data", "metadata"] ∨ q = ["data", "entries"] then some .dir
    else if q = ["data", "metadata", "subjects.json"] then
      some (.file (.doc (marshalSubjects ⟨some [(1, ⟨1, "Math", "desc"⟩)]⟩)))
    else none, []⟩

/-- The world `NewStorage` builds on `diskA`. -/
def worldA : World :=
  match NewStorage diskA ["data"] with
  | (fs, .ok st) => ⟨st, fs⟩
  | (fs, .error _) => ⟨emptyStorage ["data"], fs⟩

/-- The world `world1` with a stale body file left at the place of entry `7`
of subject `1`. -/
def worldStale : World :=
  ⟨world1.st,
   ⟨fun q =>
      if q = contentPath ["data"] 1 7 then some (.file (.text "old"))
      else if q = entryDir ["data"] 1 7 ∨ q = subjectDir ["data"] 1 then some .dir
      else world1.fs.nodes q, []⟩⟩

/-- The world after `NewEntry(1, "Notes")` with generated ID `7` in
`worldStale`. -/
def worldStaleAfter : World :=
  ((NewEntry worldStale 1 "Notes" 7 100 101).map Prod.fst).getD worldStale

/-- A file tree in which the root `data` exists as an empty directory. -/
def diskRootOnly : FS :=
  ⟨fun q => if q = [] ∨ q = ["data"] then some .dir else none, []⟩

/-- A file tree in which the root `data` does not exist yet. -/
def diskFresh : FS :=
  ⟨fun q => if q = [] then some .dir else none, []⟩

/-- The world `world2` with an I/O failure scheduled for the next file-system
call. -/
def world2Failing : World :=
  ⟨world2.st, ⟨world2.fs.nodes, [true]⟩⟩

/-- The world after `RemoveSubject(1)` in `world2Failing`. -/
def worldRemoveFailed : World :=
  ((RemoveSubject world2Failing 1).map Prod.fst).getD world2Failing

/-- The world after `NewEntry(1, "More")` with generated ID `8` in
`world2Failing`. -/
def worldNewEntryFailed : World :=
  ((NewEntry world2Failing 1 "More" 8 300 301).map Prod.fst).getD world2Failing

/-- A file tree in which the root `data` has both subdirectories and both
JSON files, each holding the empty object `{}`. -/
def diskEmptyObjects : FS :=
  ⟨fun q =>
    if q = [] ∨ q = ["data"] ∨ q = ["data", "metadata"] ∨ q = ["data", "entries"] then some .dir
    else if q = ["data", "metadata", "subjects.json"] ∨ q = ["data", "metadata", "entries.json"]
    then some (.file (.doc (.obj [])))
    else none, []⟩

/-- The world `NewStorage` builds on `diskEmptyObjects`. -/
def worldEmptyObjects : World :=
  match NewStorage diskEmptyObjects ["data"] with
  | (fs, .ok st) => ⟨st, fs⟩
  | (fs, .error _) => ⟨emptyStorage ["data"], fs⟩

/-- The tree `diskFresh` with an I/O failure scheduled for the tenth
file-system call, which in `NewStorage` on a fresh root is the first write of
`flushMetadata`. -/
def diskFreshFlushFails : FS :=
  ⟨diskFresh.nodes, [false, false, false, false, false, false, false, false, false, true]⟩

/-- The world a second `NewStorage` builds on the tree the first one, run on
`diskFreshFlushFails`, left behind. -/
def worldSecondStart : World :=
  match NewStorage (NewStorage diskFreshFlushFails ["data"]).1 ["data"] with
  | (fs, .ok st) => ⟨st, fs⟩
  | (fs, .error _) => ⟨emptyStorage ["data"], fs⟩

/-- The world after `NewSubject` with the one-byte name `0xFF`, which is not
valid UTF-8, and generated ID `1` in `world0`. -/
def worldInvalidName : World :=
  ((NewSubject world0 1 [0xFF] "d").map Prod.fst).getD world0

/-- The world after `NewEntry(1, "Notes")` in `worldInvalidName`, with
generated ID `7` and two clock readings that carry a monotonic reading, the
first in a zone one hour east of UTC, the second in a zone of offset zero. -/
def worldLive : World :=
  ((NewEntry worldInvalidName 1 "Notes" 7 ⟨100, .Zone 60, some 5⟩
    ⟨101, .Zone 0, some 6⟩).map Prod.fst).getD worldInvalidName

/-- The world `world0` with an I/O failure scheduled for the second
file-system call, which in `NewSubject` is the write of `entries.json`. -/
def world0EntriesWriteFails : World :=
  ⟨world0.st, ⟨world0.fs.nodes, [false, true]⟩⟩

/-- The world after `NewSubject("Math", "desc")` with generated ID `1` in
`world0EntriesWriteFails`: `subjects.json` is written, `entries.json` is
not. -/
def worldHalfFlushed : World :=
  ((NewSubject world0EntriesWriteFails 1 "Math" "desc").map Prod.fst).getD
    world0EntriesWriteFails

/-- The world `NewStorage` builds on the tree of `worldHalfFlushed`: the
restart after the failed flush. -/
def worldRestarted : World :=
  match NewStorage worldHalfFlushed.fs ["data"] with
  | (fs, .ok st) => ⟨st, fs⟩
  | (fs, .error _) => ⟨emptyStorage ["data"], fs⟩

/-! ## Lemmas on maps -/

theorem Items.get_put {V : Type} (k : UUID) (v : V) (m : Items V) (k' : UUID) :
    Items.get (Items.put k v m) k' = if k' = k then some v else Items.get m k' := by
  induction m with
  | nil => simp [Items.put, Items.get]
  | cons p t ih =>
    obtain ⟨a, b⟩ := p
    by_cases hk : k' = k
    · subst hk
      by_cases h1 : k' < a
      · simp [Items.put, h1, Items.get]
      · by_cases h2 : k' = a
        · simp [Items.put, h2, Items.get]
        · simp [Items.put, h1, h2, Items.get, ih]
    · by_cases h1 : k < a
      · simp [Items.put, h1, Items.get, hk]
      · by_cases h2 : k = a
        · subst h2
          simp [Items.put, Items.get, hk]
        · simp [Items.put, h1, h2, Items.get, ih, hk]

theorem Items.get_del {V : Type} (k : UUID) (m : Items V) (k' : UUID) :
    Items.get (Items.del k m) k' = if k' = k then none else Items.get m k' := by
  induction m with
  | nil => simp [Items.del, Items.get]
  | cons p t ih =>
    obtain ⟨a, b⟩ := p
    simp only [Items.del]
    split_ifs with h1 h2 h2
    · exact ih.trans (by simp [h2])
    · rw [ih]
      have : k' ≠ a := fun h => h2 (h.trans h1)
      simp [Items.get, h2, this]
    · subst h2
      have : a ≠ k' := h1
      simp [Items.get, ih, Ne.symm this]
    · simp [Items.get, ih, h2]

theorem Items.length_put {V : Type} (k : UUID) (v : V) (m : Items V)
    (h : Items.get m k = none) : (Items.put k v m).length = m.length + 1 := by
  induction m with
  | nil => simp [Items.put]
  | cons p t ih =>
    obtain ⟨a, b⟩ := p
    simp only [Items.get] at h
    by_cases h2 : k = a
    · simp [h2] at h
    · simp only [h2, if_false] at h
      simp only [Items.put]
      by_cases h1 : k < a
      · simp [h1]
      · simp [h1, h2, ih h]

theorem Items.mem_put {V : Type} (k : UUID) (v : V) (m : Items V) (p : UUID × V)
    (h : p ∈ Items.put k v m) : p = (k, v) ∨ p ∈ m := by
  induction m with
  | nil => simpa [Items.put] using h
  | cons q t ih =>
    obtain ⟨a, b⟩ := q
    simp only [Items.put] at h
    by_cases h1 : k < a
    · simp only [h1, if_true, List.mem_cons] at h
      rcases h with h | h | h
      · exact Or.inl h
      · exact Or.inr (h ▸ List.mem_cons_self _ _)
      · exact Or.inr (List.mem_cons_of_mem _ h)
    · by_cases h2 : k = a
      · subst h2
        simp only [h1, if_false, if_true, List.mem_cons] at h
        rcases h with h | h
        · exact Or.inl h
        · exact Or.inr (List.mem_cons_of_mem _ h)
      · simp only [h1, h2, if_false, List.mem_cons] at h
        rcases h with h | h
        · exact Or.inr (h ▸ List.mem_cons_self _ _)
        · rcases ih h with h | h
          · exact Or.inl h
          · exact Or.inr (List.mem_cons_of_mem _ h)

theorem Items.mem_del {V : Type} (k : UUID) (m : Items V) (p : UUID × V)
    (h : p ∈ Items.del k m) : p ∈ m := by
  induction m with
  | nil => simp [Items.del] at h
  | cons q t ih =>
    obtain ⟨a, b⟩ := q
    simp only [Items.del] at h
    by_cases h1 : a = k
    · simp only [h1, if_true] at h
      exact List.mem_cons_of_mem _ (ih h)
    · simp only [h1, if_false, List.mem_cons] at h
      rcases h with h | h
      · exact h ▸ List.mem_cons_self _ _
      · exact List.mem_cons_of_mem _ (ih h)

theorem Items.mem_of_get {V : Type} (m : Items V) (k : UUID) (v : V)
    (h : Items.get m k = some v) : (k, v) ∈ m := by
  induction m with
  | nil => simp [Items.get] at h
  | cons q t ih =>
    obtain ⟨a, b⟩ := q
    simp only [Items.get] at h
    by_cases h1 : k = a
    · simp only [h1, if_true, Option.some.injEq] at h
      simp [h1, h]
    · simp only [h1, if_false] at h
      exact List.mem_cons_of_mem _ (ih h)

theorem Items.put_sorted {V : Type} (k : UUID) (v : V) (m : Items V)
    (h : Items.Sorted m) : Items.Sorted (Items.put k v m) := by
  induction m with
  | nil => simp [Items.put, Items.Sorted]
  | cons q t ih =>
    obtain ⟨a, b⟩ := q
    have ht : Items.Sorted t := (List.pairwise_cons.1 h).2
    have hlt : ∀ p ∈ t, a < p.1 := (List.pairwise_cons.1 h).1
    simp only [Items.put]
    by_cases h1 : k < a
    · simp only [h1, if_true]
      refine List.pairwise_cons.2 ⟨?_, h⟩
      intro p hp
      rcases List.mem_cons.1 hp with hp | hp
      · simpa [hp] using h1
      · exact Nat.lt_trans h1 (hlt p hp)
    · by_cases h2 : k = a
      · subst h2
        simp only [h1, if_false, if_true]
        exact List.pairwise_cons.2 ⟨hlt, ht⟩
      · simp only [h1, h2, if_false]
        refine List.pairwise_cons.2 ⟨?_, ih ht⟩
        intro p hp
        rcases Items.mem_put k v t p hp with hp | hp
        · have : a < k := Nat.lt_of_le_of_ne (Nat.le_of_not_lt h1) (Ne.symm h2)
          simpa [hp] using this
        · exact hlt p hp

theorem Items.del_sorted {V : Type} (k : UUID) (m : Items V)
    (h : Items.Sorted m) : Items.Sorted (Items.del k m) := by
  induction m with
  | nil => simp [Items.del, Items.Sorted]
  | cons q t ih =>
    obtain ⟨a, b⟩ := q
    have ht : Items.Sorted t := (List.pairwise_cons.1 h).2
    have hlt : ∀ p ∈ t, a < p.1 := (List.pairwise_cons.1 h).1
    simp only [Items.del]
    by_cases h1 : a = k
    · simp only [h1, if_true]
      exact ih ht
    · simp only [h1, if_false]
      exact List.pairwise_cons.2 ⟨fun p hp => hlt p (Items.mem_del k t p hp), ih ht⟩

/-! ## Lemmas on the file tree -/

theorem subjectsPath_ne_entriesPath (root : Path) : subjectsPath root ≠ entriesPath root := by
  simp [subjectsPath, entriesPath]

theorem contentPath_ne_subjectsPath (root : Path) (a b : UUID) :
    subjectsPath root ≠ contentPath root a b := by
  simp [subjectsPath, contentPath, entryDir]

theorem contentPath_ne_entriesPath (root : Path) (a b : UUID) :
    entriesPath root ≠ contentPath root a b := by
  simp [entriesPath, contentPath, entryDir]

theorem storeFile_nodes_ne (fs : FS) (p : Path) (d : Data) (q : Path) (h : q ≠ p) :
    (storeFile fs p d).1.nodes q = fs.nodes q := by
  unfold storeFile
  split
  · rfl
  · split <;> simp [FS.next, h]

theorem storeFile_ok (fs : FS) (p : Path) (d : Data) (h : (storeFile fs p d).2 = none) :
    (storeFile fs p d).1.nodes p = some (.file d) := by
  unfold storeFile at h ⊢
  split at h
  · simp at h
  · split at h <;> simp_all

theorem osWriteFile_nodes_ne (fs : FS) (p : Path) (d : Data) (q : Path) (h : q ≠ p) :
    (osWriteFile fs p d).1.nodes q = fs.nodes q := by
  unfold osWriteFile
  split
  · rfl
  · exact storeFile_nodes_ne fs p d q h

theorem osWriteFile_ok (fs : FS) (p : Path) (d : Data) (h : (osWriteFile fs p d).2 = none) :
    (osWriteFile fs p d).1.nodes p = some (.file d) := by
  unfold osWriteFile at h ⊢
  split at h
  · simp at h
  · rename_i hf
    simp only [hf]
    exact storeFile_ok fs p d h

theorem flushMetadata_st (w : World) : (flushMetadata w).1.st = w.st := by
  unfold flushMetadata
  split
  · rfl
  · split <;> rfl

theorem flushMetadata_nodes (w : World) (q : Path)
    (h1 : q ≠ subjectsPath w.st.storageRoot) (h2 : q ≠ entriesPath w.st.storageRoot) :
    (flushMetadata w).1.fs.nodes q = w.fs.nodes q := by
  unfold flushMetadata
  split
  · rename_i fs1 e he
    have := osWriteFile_nodes_ne w.fs _ (.doc (marshalSubjects w.st.subjectsMetadata)) q h1
    rw [he] at this
    exact this
  · rename_i fs1 he
    have a1 := osWriteFile_nodes_ne w.fs _ (.doc (marshalSubjects w.st.subjectsMetadata)) q h1
    rw [he] at a1
    have a2 := osWriteFile_nodes_ne fs1 _ (.doc (marshalEntries w.st.entriesMetadata)) q h2
    split <;> rename_i he2 <;> rw [he2] at a2 <;> exact a2.trans a1

theorem flushMetadata_ok (w : World) (h : (flushMetadata w).2 = none) :
    Mirrored (flushMetadata w).1 := by
  rcases h1 : osWriteFile w.fs (subjectsPath w.st.storageRoot)
      (.doc (marshalSubjects w.st.subjectsMetadata)) with ⟨fs1, _ | e1⟩
  · rcases h2 : osWriteFile fs1 (entriesPath w.st.storageRoot)
        (.doc (marshalEntries w.st.entriesMetadata)) with ⟨fs2, _ | e2⟩
    · have a1 := osWriteFile_ok w.fs _ (.doc (marshalSubjects w.st.subjectsMetadata))
        (by rw [h1])
      have a2 := osWriteFile_ok fs1 _ (.doc (marshalEntries w.st.entriesMetadata))
        (by rw [h2])
      have a3 := osWriteFile_nodes_ne fs1 _ (.doc (marshalEntries w.st.entriesMetadata))
        _ (subjectsPath_ne_entriesPath w.st.storageRoot)
      rw [h1] at a1
      rw [h2] at a2 a3
      simp only [flushMetadata, h1, h2, Mirrored]
      exact ⟨a3.trans a1, a2⟩
    · simp [flushMetadata, h1, h2] at h
  · simp [flushMetadata, h1] at h

theorem flushMetadata_eq_ok {w w' : World} (h : flushMetadata w = (w', none)) :
    Mirrored w' ∧ w'.st = w.st := by
  have a := flushMetadata_ok w (by rw [h])
  have b := flushMetadata_st w
  rw [h] at a b
  exact ⟨a, b⟩

theorem osRemoveAll_nodes (fs : FS) (p q : Path) (h : ¬ p <+: q) :
    (osRemoveAll fs p).1.nodes q = fs.nodes q := by
  unfold osRemoveAll
  split
  · rfl
  · simp [h]

theorem entryDir_not_prefix_subjectsPath (root : Path) (a b : UUID) :
    ¬ entryDir root a b <+: subjectsPath root := by
  simp [entryDir, subjectsPath, List.prefix_append_right_inj]

theorem entryDir_not_prefix_entriesPath (root : Path) (a b : UUID) :
    ¬ entryDir root a b <+: entriesPath root := by
  simp [entryDir, entriesPath, List.prefix_append_right_inj]

theorem subjectDir_not_prefix_subjectsPath (root : Path) (a : UUID) :
    ¬ subjectDir root a <+: subjectsPath root := by
  simp [subjectDir, subjectsPath, List.prefix_append_right_inj]

theorem subjectDir_not_prefix_entriesPath (root : Path) (a : UUID) :
    ¬ subjectDir root a <+: entriesPath root := by
  simp [subjectDir, entriesPath, List.prefix_append_right_inj]

/-! ## The JSON files after a successful call -/

/-- C1: whenever a mutating facade call (`NewSubject`, `RemoveSubject`,
`UpdateSubject`, `NewEntry`, `UpdateEntryBody`, `UpdateEntryMetadata`,
`DeleteEntry`) returns no error, `subjects.json` and `entries.json` hold the
encodings of the in-memory subjects and entries maps as they stand when the
call returns. -/
theorem mutating_call_mirrors_index (w w' : World) :
    (∀ id name description ret,
      NewSubject w id name description = some (w', ret, none) → Mirrored w') ∧
    (∀ id, RemoveSubject w id = some (w', none) → Mirrored w') ∧
    (∀ id data, UpdateSubject w id data = some (w', none) → Mirrored w') ∧
    (∀ subjectID title id now1 now2 ret,
      NewEntry w subjectID title id now1 now2 = some (w', ret, none) → Mirrored w') ∧
    (∀ subjectID id data now,
      UpdateEntryBody w subjectID id data now = some (w', none) → Mirrored w') ∧
    (∀ subjectID id entry now,
      UpdateEntryMetadata w subjectID id entry now = some (w', none) → Mirrored w') ∧
    (∀ subjectID id, DeleteEntry w subjectID id = some (w', none) → Mirrored w') := by
  refine ⟨?_, ?_, ?_, ?_, ?_, ?_, ?_⟩
  · intro id name description ret h
    unfold NewSubject at h
    split at h
    · simp at h
    · split at h
      · simp at h
      · simp only [Option.some.injEq, Prod.mk.injEq] at h
        exact (flushMetadata_eq_ok (Prod.ext h.1 h.2.2)).1
  · intro id h
    unfold RemoveSubject at h
    split at h
    · simp at h
    · split at h
      · simp at h
      · simp only [Option.some.injEq] at h
        exact (flushMetadata_eq_ok h).1
  · intro id data h
    unfold UpdateSubject at h
    split at h
    · simp at h
    · split at h
      · simp at h
      · simp only [Option.some.injEq] at h
        exact (flushMetadata_eq_ok h).1
  · intro subjectID title id now1 now2 ret h
    unfold NewEntry at h
    split at h
    · simp at h
    · split at h
      · simp at h
      · split at h
        · simp at h
        · split at h
          · simp at h
          · simp only [Option.some.injEq, Prod.mk.injEq] at h
            exact (flushMetadata_eq_ok (Prod.ext h.1 h.2.2)).1
  · intro subjectID id data now h
    unfold UpdateEntryBody at h
    split at h
    · simp at h
    · split at h
      · simp at h
      · dsimp only at h
        split at h
        · simp at h
        · split at h
          · simp at h
          · rename_i w1 hf
            obtain ⟨hm, hst⟩ := flushMetadata_eq_ok hf
            split at h
            · simp at h
            · rename_i fs2 hw
              simp only [Option.some.injEq, Prod.mk.injEq, and_true] at h
              subst h
              have b1 := osWriteFile_nodes_ne w1.fs (contentPath w.st.storageRoot subjectID id)
                (.text data) _ (contentPath_ne_subjectsPath w.st.storageRoot subjectID id)
              have b2 := osWriteFile_nodes_ne w1.fs (contentPath w.st.storageRoot subjectID id)
                (.text data) _ (contentPath_ne_entriesPath w.st.storageRoot subjectID id)
              rw [hw] at b1 b2
              have hr : w1.st.storageRoot = w.st.storageRoot := by rw [hst]
              simp only [Mirrored, hr] at hm ⊢
              exact ⟨b1.trans hm.1, b2.trans hm.2⟩
  · intro subjectID id entry now h
    unfold UpdateEntryMetadata at h
    split at h
    · simp at h
    · split at h
      · simp at h
      · dsimp only at h
        split at h
        · simp at h
        · simp only [Option.some.injEq] at h
          exact (flushMetadata_eq_ok h).1
  · intro subjectID id h
    unfold DeleteEntry at h
    split at h
    · simp at h
    · split at h
      · simp at h
      · split at h
        · simp at h
        · rename_i w1 hf
          obtain ⟨hm, hst⟩ := flushMetadata_eq_ok hf
          split at h
          · simp at h
          · rename_i fs2 hw
            simp only [Option.some.injEq, Prod.mk.injEq, and_true] at h
            subst h
            have b1 := osRemoveAll_nodes w1.fs (entryDir w.st.storageRoot subjectID id)
              _ (entryDir_not_prefix_subjectsPath w.st.storageRoot subjectID id)
            have b2 := osRemoveAll_nodes w1.fs (entryDir w.st.storageRoot subjectID id)
              _ (entryDir_not_prefix_entriesPath w.st.storageRoot subjectID id)
            rw [hw] at b1 b2
            have hr : w1.st.storageRoot = w.st.storageRoot := by rw [hst]
            simp only [Mirrored, hr] at hm ⊢
            exact ⟨b1.trans hm.1, b2.trans hm.2⟩

theorem newSubject_world0 : NewSubject world0 1 "Math" "desc" = some (world1, 1, none) := by
  rfl

theorem mutating_call_mirrors_index_witness :
    NewSubject world0 1 "Math" "desc" = some (world1, 1, none) ∧ Mirrored world1 :=
  ⟨newSubject_world0,
   (mutating_call_mirrors_index world0 world1).1 1 "Math" "desc" 1 newSubject_world0⟩

theorem flushMetadata_err (w : World) (e : Error) (h : (flushMetadata w).2 = some e) :
    ∃ x, e = .os x := by
  unfold flushMetadata at h
  split at h
  · rename_i x _
    exact ⟨x, by simpa using h.symm⟩
  · split at h
    · rename_i x _
      exact ⟨x, by simpa using h.symm⟩
    · simp at h

theorem flushMetadata_ne_noSubject (w w' : World) :
    flushMetadata w ≠ (w', some .ErrNoSubject) := by
  intro h
  obtain ⟨x, hx⟩ := flushMetadata_err w .ErrNoSubject (by rw [h])
  cases hx

theorem flushMetadata_ne_noEntry (w w' : World) :
    flushMetadata w ≠ (w', some .ErrNoEntry) := by
  intro h
  obtain ⟨x, hx⟩ := flushMetadata_err w .ErrNoEntry (by rw [h])
  cases hx

theorem removeSubject_noSubject (w w' : World) (id : UUID) :
    RemoveSubject w id = some (w', some .ErrNoSubject) ↔
      SubjectExists w.st id = false ∧ w' = w := by
  constructor
  · intro h
    unfold RemoveSubject at h
    split at h
    · rename_i hc
      simp only [Option.some.injEq, Prod.mk.injEq, and_true] at h
      exact ⟨by simpa using hc, h.symm⟩
    · split at h
      · simp at h
      · simp only [Option.some.injEq] at h
        exact absurd h (flushMetadata_ne_noSubject _ _)
  · rintro ⟨h, rfl⟩
    simp [RemoveSubject, h]

theorem updateSubject_noSubject (w w' : World) (id : UUID) (data : Subject) :
    UpdateSubject w id data = some (w', some .ErrNoSubject) ↔
      SubjectExists w.st id = false ∧ w' = w := by
  constructor
  · intro h
    unfold UpdateSubject at h
    split at h
    · rename_i hc
      simp only [Option.some.injEq, Prod.mk.injEq, and_true] at h
      exact ⟨by simpa using hc, h.symm⟩
    · split at h
      · simp at h
      · simp only [Option.some.injEq] at h
        exact absurd h (flushMetadata_ne_noSubject _ _)
  · rintro ⟨h, rfl⟩
    simp [UpdateSubject, h]

theorem newEntry_noSubject (w w' : World) (subjectID : UUID) (title : GoString) (id : UUID)
    (now1 now2 : Time) (ret : UUID) :
    NewEntry w subjectID title id now1 now2 = some (w', ret, some .ErrNoSubject) ↔
      SubjectExists w.st subjectID = false ∧ w' = w ∧ ret = 0 := by
  constructor
  · intro h
    unfold NewEntry at h
    split at h
    · rename_i hc
      simp only [Option.some.injEq, Prod.mk.injEq, and_true] at h
      exact ⟨by simpa using hc, h.1.symm, h.2.symm⟩
    · split at h
      · simp at h
      · split at h
        · simp at h
        · split at h
          · simp at h
          · simp only [Option.some.injEq, Prod.mk.injEq] at h
            exact absurd (Prod.ext h.1 h.2.2 : flushMetadata _ = (w', some .ErrNoSubject))
              (flushMetadata_ne_noSubject _ _)
  · rintro ⟨h, rfl, rfl⟩
    simp [NewEntry, h]

theorem updateEntryBody_noSubject (w w' : World) (subjectID id : UUID) (data : GoString) (now : Time) :
    UpdateEntryBody w subjectID id data now = some (w', some .ErrNoSubject) ↔
      SubjectExists w.st subjectID = false ∧ w' = w := by
  constructor
  · intro h
    unfold UpdateEntryBody at h
    split at h
    · rename_i hc
      simp only [Option.some.injEq, Prod.mk.injEq, and_true] at h
      exact ⟨by simpa using hc, h.symm⟩
    · split at h
      · simp at h
      · dsimp only at h
        split at h
        · simp at h
        · split at h
          · rename_i w1 e hf
            simp only [Option.some.injEq, Prod.mk.injEq] at h
            rw [h.2] at hf
            exact absurd hf (flushMetadata_ne_noSubject _ _)
          · split at h <;> simp at h
  · rintro ⟨h, rfl⟩
    simp [UpdateEntryBody, h]

theorem updateEntryBody_noEntry (w w' : World) (subjectID id : UUID) (data : GoString) (now : Time) :
    UpdateEntryBody w subjectID id data now = some (w', some .ErrNoEntry) ↔
      SubjectExists w.st subjectID = true ∧ EntryExists w.st subjectID id = false ∧ w' = w := by
  constructor
  · intro h
    unfold UpdateEntryBody at h
    split at h
    · simp at h
    · rename_i hs
      split at h
      · rename_i hc
        simp only [Option.some.injEq, Prod.mk.injEq, and_true] at h
        exact ⟨by simpa using hs, by simpa using hc, h.symm⟩
      · dsimp only at h
        split at h
        · simp at h
        · split at h
          · rename_i w1 e hf
            simp only [Option.some.injEq, Prod.mk.injEq] at h
            rw [h.2] at hf
            exact absurd hf (flushMetadata_ne_noEntry _ _)
          · split at h <;> simp at h
  · rintro ⟨h1, h2, rfl⟩
    simp [UpdateEntryBody, h1, h2]

theorem updateEntryMetadata_noSubject (w w' : World) (subjectID id : UUID) (entry : Entry) (now : Time) :
    UpdateEntryMetadata w subjectID id entry now = some (w', some .ErrNoSubject) ↔
      SubjectExists w.st subjectID = false ∧ w' = w := by
  constructor
  · intro h
    unfold UpdateEntryMetadata at h
    split at h
    · rename_i hc
      simp only [Option.some.injEq, Prod.mk.injEq, and_true] at h
      exact ⟨by simpa using hc, h.symm⟩
    · split at h
      · simp at h
      · dsimp only at h
        split at h
        · simp at h
        · simp only [Option.some.injEq] at h
          exact absurd h (flushMetadata_ne_noSubject _ _)
  · rintro ⟨h, rfl⟩
    simp [UpdateEntryMetadata, h]

theorem updateEntryMetadata_noEntry (w w' : World) (subjectID id : UUID) (entry : Entry) (now : Time) :
    UpdateEntryMetadata w subjectID id entry now = some (w', some .ErrNoEntry) ↔
      SubjectExists w.st subjectID = true ∧ EntryExists w.st subjectID id = false ∧ w' = w := by
  constructor
  · intro h
    unfold UpdateEntryMetadata at h
    split at h
    · simp at h
    · rename_i hs
      split at h
      · rename_i hc
        simp only [Option.some.injEq, Prod.mk.injEq, and_true] at h
        exact ⟨by simpa using hs, by simpa using hc, h.symm⟩
      · dsimp only at h
        split at h
        · simp at h
        · simp only [Option.some.injEq] at h
          exact absurd h (flushMetadata_ne_noEntry _ _)
  · rintro ⟨h1, h2, rfl⟩
    simp [UpdateEntryMetadata, h1, h2]

theorem deleteEntry_noSubject (w w' : World) (subjectID id : UUID) :
    DeleteEntry w subjectID id = some (w', some .ErrNoSubject) ↔
      SubjectExists w.st subjectID = false ∧ w' = w := by
  constructor
  · intro h
    unfold DeleteEntry at h
    split at h
    · rename_i hc
      simp only [Option.some.injEq, Prod.mk.injEq, and_true] at h
      exact ⟨by simpa using hc, h.symm⟩
    · split at h
      · simp at h
      · dsimp only at h
        split at h
        · rename_i w1 e hf
          simp only [Option.some.injEq, Prod.mk.injEq] at h
          rw [h.2] at hf
          exact absurd hf (flushMetadata_ne_noSubject _ _)
        · split at h <;> simp at h
  · rintro ⟨h, rfl⟩
    simp [DeleteEntry, h]

theorem deleteEntry_noEntry (w w' : World) (subjectID id : UUID) :
    DeleteEntry w subjectID id = some (w', some .ErrNoEntry) ↔
      SubjectExists w.st subjectID = true ∧ EntryExists w.st subjectID id = false ∧ w' = w := by
  constructor
  · intro h
    unfold DeleteEntry at h
    split at h
    · simp at h
    · rename_i hs
      split at h
      · rename_i hc
        simp only [Option.some.injEq, Prod.mk.injEq, and_true] at h
        exact ⟨by simpa using hs, by simpa using hc, h.symm⟩
      · dsimp only at h
        split at h
        · rename_i w1 e hf
          simp only [Option.some.injEq, Prod.mk.injEq] at h
          rw [h.2] at hf
          exact absurd hf (flushMetadata_ne_noEntry _ _)
        · split at h <;> simp at h
  · rintro ⟨h1, h2, rfl⟩
    simp [DeleteEntry, h1, h2]

/-- C2: `RemoveSubject`, `UpdateSubject`, `NewEntry`, `UpdateEntryBody`,
`UpdateEntryMetadata` and `DeleteEntry` return `ErrNoSubject` exactly when the
subject ID is no key of the subjects map, and the three entry operations
return `ErrNoEntry` exactly when the subject is present and the entry ID is
absent under it; in both cases the world (in-memory maps, JSON files, body
files) is the one the call started from. -/
theorem not_found_is_reported_and_changes_nothing (w w' : World) (subjectID id : UUID)
    (data : Subject) (title text : GoString) (entry : Entry) (newID ret : UUID)
    (now now1 now2 : Time) :
    (RemoveSubject w subjectID = some (w', some .ErrNoSubject) ↔
      SubjectExists w.st subjectID = false ∧ w' = w) ∧
    (UpdateSubject w subjectID data = some (w', some .ErrNoSubject) ↔
      SubjectExists w.st subjectID = false ∧ w' = w) ∧
    (NewEntry w subjectID title newID now1 now2 = some (w', ret, some .ErrNoSubject) ↔
      SubjectExists w.st subjectID = false ∧ w' = w ∧ ret = 0) ∧
    (UpdateEntryBody w subjectID id text now = some (w', some .ErrNoSubject) ↔
      SubjectExists w.st subjectID = false ∧ w' = w) ∧
    (UpdateEntryMetadata w subjectID id entry now = some (w', some .ErrNoSubject) ↔
      SubjectExists w.st subjectID = false ∧ w' = w) ∧
    (DeleteEntry w subjectID id = some (w', some .ErrNoSubject) ↔
      SubjectExists w.st subjectID = false ∧ w' = w) ∧
    (UpdateEntryBody w subjectID id text now = some (w', some .ErrNoEntry) ↔
      SubjectExists w.st subjectID = true ∧ EntryExists w.st subjectID id = false ∧ w' = w) ∧
    (UpdateEntryMetadata w subjectID id entry now = some (w', some .ErrNoEntry) ↔
      SubjectExists w.st subjectID = true ∧ EntryExists w.st subjectID id = false ∧ w' = w) ∧
    (DeleteEntry w subjectID id = some (w', some .ErrNoEntry) ↔
      SubjectExists w.st subjectID = true ∧ EntryExists w.st subjectID id = false ∧ w' = w) :=
  ⟨removeSubject_noSubject w w' subjectID,
   updateSubject_noSubject w w' subjectID data,
   newEntry_noSubject w w' subjectID title newID now1 now2 ret,
   updateEntryBody_noSubject w w' subjectID id text now,
   updateEntryMetadata_noSubject w w' subjectID id entry now,
   deleteEntry_noSubject w w' subjectID id,
   updateEntryBody_noEntry w w' subjectID id text now,
   updateEntryMetadata_noEntry w w' subjectID id entry now,
   deleteEntry_noEntry w w' subjectID id⟩

/-! ## The in-memory effect of each call -/

theorem newSubject_st (w : World) (id : UUID) (name description : GoString)
    (sm : Items Subject) (em : Items (GoMap Entry))
    (hs : w.st.subjectsMetadata.Subjects = some sm) (he : w.st.entriesMetadata.Entries = some em) :
    (NewSubject w id name description).map (fun r => (r.1.st, r.2.1))
      = some (⟨w.st.storageRoot, ⟨some (Items.put id ⟨id, name, description⟩ sm)⟩,
          ⟨some (Items.put id (some []) em)⟩⟩, id) := by
  simp [NewSubject, hs, he, flushMetadata_st]

theorem removeSubject_st (w : World) (id : UUID) (h : SubjectExists w.st id = true) :
    (RemoveSubject w id).map (fun r => r.1.st)
      = some ⟨w.st.storageRoot, ⟨GoMap.del id w.st.subjectsMetadata.Subjects⟩,
          ⟨GoMap.del id w.st.entriesMetadata.Entries⟩⟩ := by
  simp only [RemoveSubject, h]
  rcases hr : osRemoveAll w.fs (subjectDir w.st.storageRoot id) with ⟨fs1, _ | e⟩ <;>
    simp [flushMetadata_st]

theorem updateSubject_st (w : World) (id : UUID) (data : Subject) (sm : Items Subject)
    (hs : w.st.subjectsMetadata.Subjects = some sm) (h : SubjectExists w.st id = true) :
    (UpdateSubject w id data).map (fun r => r.1.st)
      = some ⟨w.st.storageRoot,
          ⟨some (Items.put id ⟨id, data.Name, data.Description⟩ sm)⟩, w.st.entriesMetadata⟩ := by
  simp [UpdateSubject, h, hs, flushMetadata_st]

theorem newEntry_st (w : World) (subjectID : UUID) (title : GoString) (id : UUID)
    (now1 now2 : Time) (em : GoMap (GoMap Entry)) (h : SubjectExists w.st subjectID = true)
    (hset : setEntry w.st.entriesMetadata.Entries subjectID id ⟨id, title, now1, now2⟩ = some em) :
    (NewEntry w subjectID title id now1 now2).map (fun r => (r.1.st, r.2.1))
      = some (⟨w.st.storageRoot, w.st.subjectsMetadata, ⟨em⟩⟩, id) := by
  simp only [NewEntry, h, hset]
  rcases h1 : osMkdirAll w.fs (entryDir w.st.storageRoot subjectID id) with ⟨fs1, _ | e1⟩
  · rcases h2 : osOpenFileCreate fs1 (contentPath w.st.storageRoot subjectID id)
      with ⟨fs2, _ | e2⟩ <;> simp [h2, flushMetadata_st]
  · simp

theorem updateEntryBody_st (w : World) (subjectID id : UUID) (data : GoString) (now : Time)
    (old : Entry) (em : GoMap (GoMap Entry)) (h : SubjectExists w.st subjectID = true)
    (hget : getEntry w.st.entriesMetadata.Entries subjectID id = some old)
    (hset : setEntry w.st.entriesMetadata.Entries subjectID id { old with UpdatedAt := now }
      = some em) :
    (UpdateEntryBody w subjectID id data now).map (fun r => r.1.st)
      = some ⟨w.st.storageRoot, w.st.subjectsMetadata, ⟨em⟩⟩ := by
  simp only [UpdateEntryBody, h, EntryExists, hget, Option.getD, hset]
  rcases h1 : flushMetadata ⟨⟨w.st.storageRoot, w.st.subjectsMetadata, ⟨em⟩⟩, w.fs⟩
    with ⟨w1, _ | e1⟩
  · have := flushMetadata_st ⟨⟨w.st.storageRoot, w.st.subjectsMetadata, ⟨em⟩⟩, w.fs⟩
    rw [h1] at this
    dsimp only at this
    rcases h2 : osWriteFile w1.fs (contentPath w.st.storageRoot subjectID id) (.text data)
      with ⟨fs2, _ | e2⟩ <;> simp [h1, h2, this]
  · have := flushMetadata_st ⟨⟨w.st.storageRoot, w.st.subjectsMetadata, ⟨em⟩⟩, w.fs⟩
    rw [h1] at this
    dsimp only at this
    simp [h1, this]

theorem updateEntryMetadata_st (w : World) (subjectID id : UUID) (entry : Entry) (now : Time)
    (old : Entry) (em : GoMap (GoMap Entry)) (h : SubjectExists w.st subjectID = true)
    (hget : getEntry w.st.entriesMetadata.Entries subjectID id = some old)
    (hset : setEntry w.st.entriesMetadata.Entries subjectID id
      { old with Title := entry.Title, UpdatedAt := now } = some em) :
    (UpdateEntryMetadata w subjectID id entry now).map (fun r => r.1.st)
      = some ⟨w.st.storageRoot, w.st.subjectsMetadata, ⟨em⟩⟩ := by
  simp [UpdateEntryMetadata, h, EntryExists, hget, Option.getD, hset, flushMetadata_st]

theorem deleteEntry_st (w : World) (subjectID id : UUID)
    (h : SubjectExists w.st subjectID = true) (he : EntryExists w.st subjectID id = true) :
    (DeleteEntry w subjectID id).map (fun r => r.1.st)
      = some ⟨w.st.storageRoot, w.st.subjectsMetadata,
          ⟨delEntry w.st.entriesMetadata.Entries subjectID id⟩⟩ := by
  simp only [DeleteEntry, h, he]
  rcases h1 : flushMetadata ⟨⟨w.st.storageRoot, w.st.subjectsMetadata,
      ⟨delEntry w.st.entriesMetadata.Entries subjectID id⟩⟩, w.fs⟩ with ⟨w1, _ | e1⟩
  · have := flushMetadata_st ⟨⟨w.st.storageRoot, w.st.subjectsMetadata,
      ⟨delEntry w.st.entriesMetadata.Entries subjectID id⟩⟩, w.fs⟩
    rw [h1] at this
    dsimp only at this
    rcases h2 : osRemoveAll w1.fs (entryDir w.st.storageRoot subjectID id)
      with ⟨fs2, _ | e2⟩ <;> simp [h1, h2, this]
  · have := flushMetadata_st ⟨⟨w.st.storageRoot, w.st.subjectsMetadata,
      ⟨delEntry w.st.entriesMetadata.Entries subjectID id⟩⟩, w.fs⟩
    rw [h1] at this
    dsimp only at this
    simp [h1, this]

/-! ## Consistency of the two maps -/

theorem Consistent.put_both {root root' : Path} {sm : Items Subject} {em : Items (GoMap Entry)}
    (hc : Consistent ⟨root, ⟨some sm⟩, ⟨some em⟩⟩) (id : UUID) (s : Subject) (x : Items Entry) :
    Consistent ⟨root', ⟨some (Items.put id s sm)⟩, ⟨some (Items.put id (some x) em)⟩⟩ := by
  obtain ⟨sm0, em0, h1, h2, h3⟩ := hc
  simp only [Option.some.injEq] at h1 h2
  subst h1 h2
  refine ⟨_, _, rfl, rfl, fun k => ?_⟩
  simp only [Items.get_put]
  by_cases hk : k = id
  · simp [hk]
  · simpa [hk] using h3 k

theorem Consistent.del_both {root root' : Path} {sm : Items Subject} {em : Items (GoMap Entry)}
    (hc : Consistent ⟨root, ⟨some sm⟩, ⟨some em⟩⟩) (id : UUID) :
    Consistent ⟨root', ⟨GoMap.del id (some sm)⟩, ⟨GoMap.del id (some em)⟩⟩ := by
  obtain ⟨sm0, em0, h1, h2, h3⟩ := hc
  simp only [Option.some.injEq] at h1 h2
  subst h1 h2
  refine ⟨_, _, rfl, rfl, fun k => ?_⟩
  simp only [Items.get_del]
  by_cases hk : k = id
  · simp [hk]
  · simpa [hk] using h3 k

theorem Consistent.put_subject {root : Path} {sm : Items Subject}
    {em : Items (GoMap Entry)} (hc : Consistent ⟨root, ⟨some sm⟩, ⟨some em⟩⟩) (root' : Path)
    (id : UUID)
    (s : Subject) (h : (Items.get sm id).isSome = true) :
    Consistent ⟨root', ⟨some (Items.put id s sm)⟩, ⟨some em⟩⟩ := by
  obtain ⟨sm0, em0, h1, h2, h3⟩ := hc
  simp only [Option.some.injEq] at h1 h2
  subst h1 h2
  refine ⟨_, _, rfl, rfl, fun k => ?_⟩
  simp only [Items.get_put]
  by_cases hk : k = id
  · subst hk
    simpa using (h3 k).2 h
  · simpa [hk] using h3 k

theorem Consistent.put_entries {root : Path} {sm : Items Subject}
    {em : Items (GoMap Entry)} (hc : Consistent ⟨root, ⟨some sm⟩, ⟨some em⟩⟩) (root' : Path)
    (id : UUID)
    (x : Items Entry) (h : (Items.get sm id).isSome = true) :
    Consistent ⟨root', ⟨some sm⟩, ⟨some (Items.put id (some x) em)⟩⟩ := by
  obtain ⟨sm0, em0, h1, h2, h3⟩ := hc
  simp only [Option.some.injEq] at h1 h2
  subst h1 h2
  refine ⟨_, _, rfl, rfl, fun k => ?_⟩
  simp only [Items.get_put]
  by_cases hk : k = id
  · subst hk
    simpa using h
  · simpa [hk] using h3 k

theorem Consistent.of_empty (root : Path) : Consistent (emptyStorage root) :=
  ⟨[], [], rfl, rfl, fun k => by simp [Items.get]⟩

theorem world_of_map_st {α : Type} (o : Option (World × α)) (X : Storage)
    (h : o.map (fun r => r.1.st) = some X) : ∃ w', o.map Prod.fst = some w' ∧ w'.st = X := by
  cases o with
  | none => simp at h
  | some r => exact ⟨r.1, rfl, by simpa using h⟩

theorem world_of_map_st_id {α : Type} (o : Option (World × UUID × α)) (X : Storage) (y : UUID)
    (h : o.map (fun r => (r.1.st, r.2.1)) = some (X, y)) :
    ∃ w', o.map Prod.fst = some w' ∧ w'.st = X := by
  cases o with
  | none => simp at h
  | some r =>
    simp only [Option.map_some', Option.some.injEq, Prod.mk.injEq] at h
    exact ⟨r.1, rfl, h.1⟩

theorem Consistent.inner {st : Storage} (hc : Consistent st) (subjectID : UUID)
    (h : SubjectExists st subjectID = true) :
    ∃ sm em inner, st = ⟨st.storageRoot, ⟨some sm⟩, ⟨some em⟩⟩ ∧
      (Items.get sm subjectID).isSome = true ∧ Items.get em subjectID = some (some inner) := by
  obtain ⟨sm, em, h1, h2, h3⟩ := hc
  obtain ⟨root, ⟨s⟩, ⟨e⟩⟩ := st
  simp only at h1 h2
  subst h1 h2
  have hs : (Items.get sm subjectID).isSome = true := by
    simpa [SubjectExists, GoMap.has, GoMap.get] using h
  obtain ⟨inner, hi⟩ := (h3 subjectID).2 hs
  exact ⟨sm, em, inner, rfl, hs, hi⟩

theorem step_consistent (w : World) (c : Call) (hc : Consistent w.st) :
    ∃ w', step w c = some w' ∧ Consistent w'.st := by
  obtain ⟨sm, em, h1, h2, h3⟩ := id hc
  have hst : w.st = ⟨w.st.storageRoot, ⟨some sm⟩, ⟨some em⟩⟩ := by
    obtain ⟨⟨root, ⟨s⟩, ⟨e⟩⟩, fs⟩ := w
    simp only at h1 h2
    subst h1 h2
    rfl
  have hc0 : Consistent ⟨w.st.storageRoot, ⟨some sm⟩, ⟨some em⟩⟩ := hst ▸ hc
  cases c with
  | NewSubject id name description =>
    obtain ⟨w', hw, hs⟩ := world_of_map_st_id _ _ _ (newSubject_st w id name description sm em h1 h2)
    exact ⟨w', hw, hs ▸ hc0.put_both id _ []⟩
  | ListSubjects => exact ⟨w, rfl, hc⟩
  | SubjectExists id => exact ⟨w, rfl, hc⟩
  | ListEntries id => exact ⟨w, rfl, hc⟩
  | EntryExists a b => exact ⟨w, rfl, hc⟩
  | RemoveSubject id =>
    by_cases h : SubjectExists w.st id = true
    · obtain ⟨w', hw, hs⟩ := world_of_map_st _ _ (removeSubject_st w id h)
      refine ⟨w', hw, ?_⟩
      rw [hs, h1, h2]
      exact hc0.del_both id
    · exact ⟨w, by simp [step, RemoveSubject, h], hc⟩
  | UpdateSubject id data =>
    by_cases h : SubjectExists w.st id = true
    · obtain ⟨w', hw, hs⟩ := world_of_map_st _ _ (updateSubject_st w id data sm h1 h)
      refine ⟨w', hw, ?_⟩
      rw [hs]
      have hk : (Items.get sm id).isSome = true := by
        simpa [SubjectExists, GoMap.has, GoMap.get, h1] using h
      have := hc0.put_subject w.st.storageRoot id ⟨id, data.Name, data.Description⟩ hk
      rw [← h2] at this
      exact this
    · exact ⟨w, by simp [step, UpdateSubject, h], hc⟩
  | NewEntry subjectID title id now1 now2 =>
    by_cases h : SubjectExists w.st subjectID = true
    · obtain ⟨sm', em', inner, e1, e2, e3⟩ := hc.inner subjectID h
      have hsm : sm' = sm := by rw [e1] at h1; simpa using h1
      have hem : em' = em := by rw [e1] at h2; simpa using h2
      subst hsm hem
      have hset : setEntry w.st.entriesMetadata.Entries subjectID id ⟨id, title, now1, now2⟩
          = some (some (Items.put subjectID (some (Items.put id ⟨id, title, now1, now2⟩ inner))
              em')) := by
        simp [setEntry, h2, e3]
      obtain ⟨w', hw, hs⟩ := world_of_map_st_id _ _ _
        (newEntry_st w subjectID title id now1 now2 _ h hset)
      refine ⟨w', hw, ?_⟩
      rw [hs]
      have := hc0.put_entries w.st.storageRoot subjectID
        (Items.put id ⟨id, title, now1, now2⟩ inner) e2
      rw [← h1] at this
      exact this
    · exact ⟨w, by simp [step, NewEntry, h], hc⟩
  | UpdateEntryBody subjectID id data now =>
    by_cases h : SubjectExists w.st subjectID = true
    · by_cases he : EntryExists w.st subjectID id = true
      · obtain ⟨sm', em', inner, e1, e2, e3⟩ := hc.inner subjectID h
        have hsm : sm' = sm := by rw [e1] at h1; simpa using h1
        have hem : em' = em := by rw [e1] at h2; simpa using h2
        subst hsm hem
        have hg : ∃ old, getEntry w.st.entriesMetadata.Entries subjectID id = some old := by
          simpa [EntryExists, h, Option.isSome_iff_exists] using he
        obtain ⟨old, hold⟩ := hg
        have hset : setEntry w.st.entriesMetadata.Entries subjectID id
            { old with UpdatedAt := now }
            = some (some (Items.put subjectID
                (some (Items.put id { old with UpdatedAt := now } inner)) em')) := by
          simp [setEntry, h2, e3]
        obtain ⟨w', hw, hs⟩ := world_of_map_st _ _
          (updateEntryBody_st w subjectID id data now old _ h hold hset)
        refine ⟨w', hw, ?_⟩
        rw [hs]
        have := hc0.put_entries w.st.storageRoot subjectID
          (Items.put id { old with UpdatedAt := now } inner) e2
        rw [← h1] at this
        exact this
      · exact ⟨w, by simp [step, UpdateEntryBody, h, he], hc⟩
    · exact ⟨w, by simp [step, UpdateEntryBody, h], hc⟩
  | UpdateEntryMetadata subjectID id entry now =>
    by_cases h : SubjectExists w.st subjectID = true
    · by_cases he : EntryExists w.st subjectID id = true
      · obtain ⟨sm', em', inner, e1, e2, e3⟩ := hc.inner subjectID h
        have hsm : sm' = sm := by rw [e1] at h1; simpa using h1
        have hem : em' = em := by rw [e1] at h2; simpa using h2
        subst hsm hem
        have hg : ∃ old, getEntry w.st.entriesMetadata.Entries subjectID id = some old := by
          simpa [EntryExists, h, Option.isSome_iff_exists] using he
        obtain ⟨old, hold⟩ := hg
        have hset : setEntry w.st.entriesMetadata.Entries subjectID id
            { old with Title := entry.Title, UpdatedAt := now }
            = some (some (Items.put subjectID
                (some (Items.put id { old with Title := entry.Title, UpdatedAt := now } inner))
                em')) := by
          simp [setEntry, h2, e3]
        obtain ⟨w', hw, hs⟩ := world_of_map_st _ _
          (updateEntryMetadata_st w subjectID id entry now old _ h hold hset)
        refine ⟨w', hw, ?_⟩
        rw [hs]
        have := hc0.put_entries w.st.storageRoot subjectID
          (Items.put id { old with Title := entry.Title, UpdatedAt := now } inner) e2
        rw [← h1] at this
        exact this
      · exact ⟨w, by simp [step, UpdateEntryMetadata, h, he], hc⟩
    · exact ⟨w, by simp [step, UpdateEntryMetadata, h], hc⟩
  | DeleteEntry subjectID id =>
    by_cases h : SubjectExists w.st subjectID = true
    · by_cases he : EntryExists w.st subjectID id = true
      · obtain ⟨sm', em', inner, e1, e2, e3⟩ := hc.inner subjectID h
        have hsm : sm' = sm := by rw [e1] at h1; simpa using h1
        have hem : em' = em := by rw [e1] at h2; simpa using h2
        subst hsm hem
        obtain ⟨w', hw, hs⟩ := world_of_map_st _ _ (deleteEntry_st w subjectID id h he)
        refine ⟨w', hw, ?_⟩
        rw [hs]
        have hd : delEntry w.st.entriesMetadata.Entries subjectID id
            = some (Items.put subjectID (some (Items.del id inner)) em') := by
          simp [delEntry, h2, e3]
        rw [hd]
        have := hc0.put_entries w.st.storageRoot subjectID (Items.del id inner) e2
        rw [← h1] at this
        exact this
      · exact ⟨w, by simp [step, DeleteEntry, h, he], hc⟩
    · exact ⟨w, by simp [step, DeleteEntry, h], hc⟩

/-! ## The canonical form is kept -/

theorem canonical_put_both {root : Path} {sm : Items Subject} {em : Items (GoMap Entry)}
    (hk : Canonical ⟨root, ⟨some sm⟩, ⟨some em⟩⟩) (root' : Path) (id : UUID) (s : Subject)
    (x : Items Entry) (hx : Items.Sorted x) :
    Canonical ⟨root', ⟨some (Items.put id s sm)⟩, ⟨some (Items.put id (some x) em)⟩⟩ := by
  obtain ⟨k1, k2, k3⟩ := hk
  refine ⟨?_, ?_, ?_⟩
  · intro l hl
    simp only [Option.some.injEq] at hl
    subst hl
    exact Items.put_sorted _ _ _ (k1 sm rfl)
  · intro l hl
    simp only [Option.some.injEq] at hl
    subst hl
    exact Items.put_sorted _ _ _ (k2 em rfl)
  · intro l hl p hp
    simp only [Option.some.injEq] at hl
    subst hl
    rcases Items.mem_put _ _ _ p hp with h | h
    · subst h
      intro l hl
      simp only [Option.some.injEq] at hl
      subst hl
      exact hx
    · exact k3 em rfl p h

theorem canonical_del_both {root : Path} {sm : Items Subject} {em : Items (GoMap Entry)}
    (hk : Canonical ⟨root, ⟨some sm⟩, ⟨some em⟩⟩) (root' : Path) (id : UUID) :
    Canonical ⟨root', ⟨GoMap.del id (some sm)⟩, ⟨GoMap.del id (some em)⟩⟩ := by
  obtain ⟨k1, k2, k3⟩ := hk
  refine ⟨?_, ?_, ?_⟩
  · intro l hl
    simp only [GoMap.del, Option.some.injEq] at hl
    subst hl
    exact Items.del_sorted _ _ (k1 sm rfl)
  · intro l hl
    simp only [GoMap.del, Option.some.injEq] at hl
    subst hl
    exact Items.del_sorted _ _ (k2 em rfl)
  · intro l hl p hp
    simp only [GoMap.del, Option.some.injEq] at hl
    subst hl
    exact k3 em rfl p (Items.mem_del _ _ p hp)

theorem canonical_put_subject {root : Path} {sm : Items Subject} {em : Items (GoMap Entry)}
    (hk : Canonical ⟨root, ⟨some sm⟩, ⟨some em⟩⟩) (root' : Path) (id : UUID) (s : Subject) :
    Canonical ⟨root', ⟨some (Items.put id s sm)⟩, ⟨some em⟩⟩ := by
  obtain ⟨k1, k2, k3⟩ := hk
  refine ⟨?_, k2, k3⟩
  intro l hl
  simp only [Option.some.injEq] at hl
  subst hl
  exact Items.put_sorted _ _ _ (k1 sm rfl)

theorem canonical_put_entries {root : Path} {sm : Items Subject} {em : Items (GoMap Entry)}
    (hk : Canonical ⟨root, ⟨some sm⟩, ⟨some em⟩⟩) (root' : Path) (id : UUID)
    (x : Items Entry) (hx : Items.Sorted x) :
    Canonical ⟨root', ⟨some sm⟩, ⟨some (Items.put id (some x) em)⟩⟩ := by
  obtain ⟨k1, k2, k3⟩ := hk
  refine ⟨k1, ?_, ?_⟩
  · intro l hl
    simp only [Option.some.injEq] at hl
    subst hl
    exact Items.put_sorted _ _ _ (k2 em rfl)
  · intro l hl p hp
    simp only [Option.some.injEq] at hl
    subst hl
    rcases Items.mem_put _ _ _ p hp with h | h
    · subst h
      intro l hl
      simp only [Option.some.injEq] at hl
      subst hl
      exact hx
    · exact k3 em rfl p h

theorem canonical_inner {root : Path} {sm : SubjectsMetadata} {em : Items (GoMap Entry)}
    (hk : Canonical ⟨root, sm, ⟨some em⟩⟩) (k : UUID) (inner : Items Entry)
    (h : Items.get em k = some (some inner)) : Items.Sorted inner :=
  hk.2.2 em rfl (k, some inner) (Items.mem_of_get em k _ h) inner rfl

theorem canonical_of_empty (root : Path) : Canonical (emptyStorage root) := by
  refine ⟨?_, ?_, ?_⟩
  · intro l hl
    simp only [emptyStorage, Option.some.injEq] at hl
    subst hl
    simp [Items.Sorted]
  · intro l hl
    simp only [emptyStorage, Option.some.injEq] at hl
    subst hl
    simp [Items.Sorted]
  · intro l hl p hp
    simp only [emptyStorage, Option.some.injEq] at hl
    subst hl
    simp at hp

theorem step_canonical (w w' : World) (c : Call) (hc : Consistent w.st)
    (hk : Canonical w.st) (hstep : step w c = some w') : Canonical w'.st := by
  obtain ⟨sm, em, h1, h2, -⟩ := id hc
  have hst : w.st = ⟨w.st.storageRoot, ⟨some sm⟩, ⟨some em⟩⟩ := by
    obtain ⟨⟨root, ⟨s⟩, ⟨e⟩⟩, fs⟩ := w
    simp only at h1 h2
    subst h1 h2
    rfl
  have hk0 : Canonical ⟨w.st.storageRoot, ⟨some sm⟩, ⟨some em⟩⟩ := hst ▸ hk
  have same : ∀ o : Option World, o = some w → step w c = o → Canonical w'.st := by
    intro o ho hs
    have : w' = w := by
      rw [hs, ho] at hstep
      exact (Option.some.inj hstep).symm
    rw [this]
    exact hk
  have moved : ∀ (w'' : World) (X : Storage), step w c = some w'' → w''.st = X →
      Canonical X → Canonical w'.st := by
    intro w'' X hs hX hcan
    have : w' = w'' := by
      rw [hs] at hstep
      exact (Option.some.inj hstep).symm
    rw [this, hX]
    exact hcan
  cases c with
  | NewSubject id name description =>
    obtain ⟨w'', hw, hs⟩ :=
      world_of_map_st_id _ _ _ (newSubject_st w id name description sm em h1 h2)
    exact moved w'' _ hw hs (canonical_put_both hk0 _ id _ [] (by simp [Items.Sorted]))
  | ListSubjects => exact same _ rfl rfl
  | SubjectExists id => exact same _ rfl rfl
  | ListEntries id => exact same _ rfl rfl
  | EntryExists a b => exact same _ rfl rfl
  | RemoveSubject id =>
    by_cases h : SubjectExists w.st id = true
    · obtain ⟨w'', hw, hs⟩ := world_of_map_st _ _ (removeSubject_st w id h)
      rw [h1, h2] at hs
      exact moved w'' _ hw hs (canonical_del_both hk0 _ id)
    · exact same _ rfl (by simp [step, RemoveSubject, h])
  | UpdateSubject id data =>
    by_cases h : SubjectExists w.st id = true
    · obtain ⟨w'', hw, hs⟩ := world_of_map_st _ _ (updateSubject_st w id data sm h1 h)
      refine moved w'' _ hw hs ?_
      have := canonical_put_subject hk0 w.st.storageRoot id ⟨id, data.Name, data.Description⟩
      rw [← h2] at this
      exact this
    · exact same _ rfl (by simp [step, UpdateSubject, h])
  | NewEntry subjectID title id now1 now2 =>
    by_cases h : SubjectExists w.st subjectID = true
    · obtain ⟨sm', em', inner, e1, -, e3⟩ := hc.inner subjectID h
      have hsm : sm' = sm := by rw [e1] at h1; simpa using h1
      have hem : em' = em := by rw [e1] at h2; simpa using h2
      subst hsm hem
      have hset : setEntry w.st.entriesMetadata.Entries subjectID id ⟨id, title, now1, now2⟩
          = some (some (Items.put subjectID (some (Items.put id ⟨id, title, now1, now2⟩ inner))
              em')) := by
        simp [setEntry, h2, e3]
      obtain ⟨w'', hw, hs⟩ := world_of_map_st_id _ _ _
        (newEntry_st w subjectID title id now1 now2 _ h hset)
      refine moved w'' _ hw hs ?_
      have := canonical_put_entries hk0 w.st.storageRoot subjectID
        (Items.put id ⟨id, title, now1, now2⟩ inner)
        (Items.put_sorted _ _ _ (canonical_inner hk0 subjectID inner e3))
      rw [← h1] at this
      exact this
    · exact same _ rfl (by simp [step, NewEntry, h])
  | UpdateEntryBody subjectID id data now =>
    by_cases h : SubjectExists w.st subjectID = true
    · by_cases he : EntryExists w.st subjectID id = true
      · obtain ⟨sm', em', inner, e1, -, e3⟩ := hc.inner subjectID h
        have hsm : sm' = sm := by rw [e1] at h1; simpa using h1
        have hem : em' = em := by rw [e1] at h2; simpa using h2
        subst hsm hem
        obtain ⟨old, hold⟩ : ∃ old,
            getEntry w.st.entriesMetadata.Entries subjectID id = some old := by
          simpa [EntryExists, h, Option.isSome_iff_exists] using he
        have hset : setEntry w.st.entriesMetadata.Entries subjectID id
            { old with UpdatedAt := now }
            = some (some (Items.put subjectID
                (some (Items.put id { old with UpdatedAt := now } inner)) em')) := by
          simp [setEntry, h2, e3]
        obtain ⟨w'', hw, hs⟩ := world_of_map_st _ _
          (updateEntryBody_st w subjectID id data now old _ h hold hset)
        refine moved w'' _ hw hs ?_
        have := canonical_put_entries hk0 w.st.storageRoot subjectID
          (Items.put id { old with UpdatedAt := now } inner)
          (Items.put_sorted _ _ _ (canonical_inner hk0 subjectID inner e3))
        rw [← h1] at this
        exact this
      · exact same _ rfl (by simp [step, UpdateEntryBody, h, he])
    · exact same _ rfl (by simp [step, UpdateEntryBody, h])
  | UpdateEntryMetadata subjectID id entry now =>
    by_cases h : SubjectExists w.st subjectID = true
    · by_cases he : EntryExists w.st subjectID id = true
      · obtain ⟨sm', em', inner, e1, -, e3⟩ := hc.inner subjectID h
        have hsm : sm' = sm := by rw [e1] at h1; simpa using h1
        have hem : em' = em := by rw [e1] at h2; simpa using h2
        subst hsm hem
        obtain ⟨old, hold⟩ : ∃ old,
            getEntry w.st.entriesMetadata.Entries subjectID id = some old := by
          simpa [EntryExists, h, Option.isSome_iff_exists] using he
        have hset : setEntry w.st.entriesMetadata.Entries subjectID id
            { old with Title := entry.Title, UpdatedAt := now }
            = some (some (Items.put subjectID
                (some (Items.put id { old with Title := entry.Title, UpdatedAt := now } inner))
                em')) := by
          simp [setEntry, h2, e3]
        obtain ⟨w'', hw, hs⟩ := world_of_map_st _ _
          (updateEntryMetadata_st w subjectID id entry now old _ h hold hset)
        refine moved w'' _ hw hs ?_
        have := canonical_put_entries hk0 w.st.storageRoot subjectID
          (Items.put id { old with Title := entry.Title, UpdatedAt := now } inner)
          (Items.put_sorted _ _ _ (canonical_inner hk0 subjectID inner e3))
        rw [← h1] at this
        exact this
      · exact same _ rfl (by simp [step, UpdateEntryMetadata, h, he])
    · exact same _ rfl (by simp [step, UpdateEntryMetadata, h])
  | DeleteEntry subjectID id =>
    by_cases h : SubjectExists w.st subjectID = true
    · by_cases he : EntryExists w.st subjectID id = true
      · obtain ⟨sm', em', inner, e1, -, e3⟩ := hc.inner subjectID h
        have hsm : sm' = sm := by rw [e1] at h1; simpa using h1
        have hem : em' = em := by rw [e1] at h2; simpa using h2
        subst hsm hem
        obtain ⟨w'', hw, hs⟩ := world_of_map_st _ _ (deleteEntry_st w subjectID id h he)
        have hd : delEntry w.st.entriesMetadata.Entries subjectID id
            = some (Items.put subjectID (some (Items.del id inner)) em') := by
          simp [delEntry, h2, e3]
        rw [hd] at hs
        refine moved w'' _ hw hs ?_
        have := canonical_put_entries hk0 w.st.storageRoot subjectID (Items.del id inner)
          (Items.del_sorted _ _ (canonical_inner hk0 subjectID inner e3))
        rw [← h1] at this
        exact this
      · exact same _ rfl (by simp [step, DeleteEntry, h, he])
    · exact same _ rfl (by simp [step, DeleteEntry, h])

theorem run_canonical (calls : List Call) :
    ∀ w w' : World, Consistent w.st → Canonical w.st → run w calls = some w' →
      Canonical w'.st := by
  induction calls with
  | nil =>
    intro w w' _ hk h
    simp only [run, Option.some.injEq] at h
    exact h ▸ hk
  | cons c cs ih =>
    intro w w' hc hk h
    obtain ⟨w1, h1, hc1⟩ := step_consistent w c hc
    simp only [run, h1] at h
    exact ih w1 w' hc1 (step_canonical w w1 c hc hk h1) h

theorem reachable_canonical (root : Path) (fs : FS) (calls : List Call) (w : World)
    (h : run ⟨emptyStorage root, fs⟩ calls = some w) : Canonical w.st :=
  run_canonical calls _ w (Consistent.of_empty root) (canonical_of_empty root) h

theorem run_consistent (calls : List Call) :
    ∀ w : World, Consistent w.st → ∃ w', run w calls = some w' ∧ Consistent w'.st := by
  induction calls with
  | nil => exact fun w hc => ⟨w, rfl, hc⟩
  | cons c cs ih =>
    intro w hc
    obtain ⟨w1, h1, hc1⟩ := step_consistent w c hc
    obtain ⟨w2, h2, hc2⟩ := ih w1 hc1
    exact ⟨w2, by simp [run, h1, h2], hc2⟩

/-- C3: starting from the empty index (both maps made and empty), on any file
tree and under any schedule of I/O failures, every sequence of facade calls
runs to a world (no call faults), whether the calls succeed or fail, and in
that world every key of the entries map is a key of the subjects map. -/
theorem entries_keys_are_subjects (root : Path) (fs : FS) (calls : List Call) :
    ∃ w, run ⟨emptyStorage root, fs⟩ calls = some w ∧
      ∀ k, GoMap.has w.st.entriesMetadata.Entries k = true → SubjectExists w.st k = true := by
  obtain ⟨w, hw, sm, em, h1, h2, h3⟩ :=
    run_consistent calls ⟨emptyStorage root, fs⟩ (Consistent.of_empty root)
  refine ⟨w, hw, fun k hk => ?_⟩
  simp only [SubjectExists, GoMap.has, GoMap.get, h1, h2] at hk ⊢
  exact (h3 k).1 hk

/-! ## UTF-8: what the JSON round trip does to a Go string -/

theorem decodeRune_encodeRune (r : Nat) (rest : List Nat) :
    decodeRune (encodeRune r ++ rest) = (fixRune r, (encodeRune r).length) := by
  unfold encodeRune fixRune
  by_cases h1 : r < 0x80
  · have a4 : ¬ ((0xD800 ≤ r ∧ r ≤ 0xDFFF) ∨ 0x10FFFF < r) := by omega
    simp [h1, decodeRune, a4]
  · by_cases h2 : r < 0x800
    · simp only [h1, h2, if_true, if_false, List.cons_append, List.nil_append, decodeRune, isCont]
      have a1 : ¬ (0xC0 + r / 64 < 0x80) := by omega
      have a2 : 0xC2 ≤ 0xC0 + r / 64 ∧ 0xC0 + r / 64 ≤ 0xDF := by omega
      have a3 : 0x80 ≤ 0x80 + r % 64 ∧ 0x80 + r % 64 ≤ 0xBF := by omega
      have a4 : ¬ ((0xD800 ≤ r ∧ r ≤ 0xDFFF) ∨ 0x10FFFF < r) := by omega
      simp only [a1, a2, a3, a4, if_true, if_false, decide_True, and_self, List.length_cons, List.length_nil]
      simp
      omega
    · by_cases h3 : (0xD800 ≤ r ∧ r ≤ 0xDFFF) ∨ 0x10FFFF < r
      · simp [h1, h2, h3, decodeRune, isCont]
      · by_cases h4 : r < 0x10000
        · simp only [h1, h2, h3, h4, if_true, if_false, List.cons_append, List.nil_append, decodeRune, isCont]
          have a1 : ¬ (0xE0 + r / 4096 < 0x80) := by omega
          have a2 : ¬ (0xC2 ≤ 0xE0 + r / 4096 ∧ 0xE0 + r / 4096 ≤ 0xDF) := by omega
          have a3 : 0xE0 ≤ 0xE0 + r / 4096 ∧ 0xE0 + r / 4096 ≤ 0xEF := by omega
          have a4 : (if 0xE0 + r / 4096 = 0xE0 then 0xA0 else 0x80) ≤ 0x80 + r / 64 % 64 := by
            split <;> omega
          have a5 : 0x80 + r / 64 % 64 ≤ (if 0xE0 + r / 4096 = 0xED then 0x9F else 0xBF) := by
            split <;> omega
          have a6 : 0x80 ≤ 0x80 + r % 64 ∧ 0x80 + r % 64 ≤ 0xBF := by omega
          simp only [a1, a2, a3, a4, a5, a6, if_true, if_false, decide_True, and_self, true_and, List.length_cons, List.length_nil]
          simp
          omega
        · simp only [h1, h2, h3, h4, if_true, if_false, List.cons_append, List.nil_append, decodeRune, isCont]
          have a1 : ¬ (0xF0 + r / 262144 < 0x80) := by omega
          have a2 : ¬ (0xC2 ≤ 0xF0 + r / 262144 ∧ 0xF0 + r / 262144 ≤ 0xDF) := by omega
          have a3 : ¬ (0xE0 ≤ 0xF0 + r / 262144 ∧ 0xF0 + r / 262144 ≤ 0xEF) := by omega
          have a3' : 0xF0 ≤ 0xF0 + r / 262144 ∧ 0xF0 + r / 262144 ≤ 0xF4 := by omega
          have a4 : (if 0xF0 + r / 262144 = 0xF0 then 0x90 else 0x80) ≤ 0x80 + r / 4096 % 64 := by
            split <;> omega
          have a5 : 0x80 + r / 4096 % 64 ≤ (if 0xF0 + r / 262144 = 0xF4 then 0x8F else 0xBF) := by
            split <;> omega
          have a6 : 0x80 ≤ 0x80 + r / 64 % 64 ∧ 0x80 + r / 64 % 64 ≤ 0xBF := by omega
          have a7 : 0x80 ≤ 0x80 + r % 64 ∧ 0x80 + r % 64 ≤ 0xBF := by omega
          simp only [a1, a2, a3, a3', a4, a5, a6, a7, if_true, if_false, decide_True, and_self, true_and, List.length_cons, List.length_nil]
          simp
          omega


theorem encodeRune_ne_nil (r : Nat) : encodeRune r ≠ [] := by
  unfold encodeRune
  split_ifs <;> simp

theorem toRunesAux_ofRunes (rs : List Nat) :
    ∀ n, (ofRunes rs).length ≤ n → toRunesAux n (ofRunes rs) = rs.map fixRune := by
  induction rs with
  | nil =>
    intro n _
    cases n <;> simp [ofRunes, toRunesAux]
  | cons r rs ih =>
    intro n hn
    have hdec := decodeRune_encodeRune r (ofRunes rs)
    have hcons : ofRunes (r :: rs) = encodeRune r ++ ofRunes rs := by simp [ofRunes]
    rw [hcons] at hn ⊢
    cases henc : encodeRune r with
    | nil => exact absurd henc (encodeRune_ne_nil r)
    | cons b t =>
      rw [henc] at hn hdec
      cases n with
      | zero => simp at hn
      | succ n =>
        simp only [List.cons_append] at hdec ⊢
        unfold toRunesAux
        rw [hdec]
        simp only [List.map_cons, List.cons.injEq, true_and]
        have hd : List.drop (b :: t).length (b :: (t ++ ofRunes rs)) = ofRunes rs := by
          rw [← List.cons_append]
          exact List.drop_left _ _
        rw [hd]
        apply ih
        simp only [List.length_cons, List.length_append] at hn
        omega

theorem toRunes_ofRunes (rs : List Nat) : toRunes (ofRunes rs) = rs.map fixRune :=
  toRunesAux_ofRunes rs _ (Nat.le_refl _)

theorem encodeRune_fixRune (r : Nat) : encodeRune (fixRune r) = encodeRune r := by
  unfold fixRune
  split
  · rename_i h
    have : encodeRune r = [0xEF, 0xBF, 0xBD] := by
      unfold encodeRune
      have h1 : ¬ r < 0x80 := by omega
      have h2 : ¬ r < 0x800 := by omega
      simp [h1, h2, h]
    rw [this]
    decide
  · rfl

theorem coerceUTF8_idem (s : GoString) : coerceUTF8 (coerceUTF8 s) = coerceUTF8 s := by
  unfold coerceUTF8
  rw [toRunes_ofRunes]
  have : ∀ rs : List Nat, ofRunes (rs.map fixRune) = ofRunes rs := by
    intro rs
    induction rs with
    | nil => rfl
    | cons r rs ih =>
      simp only [ofRunes, List.map_cons, List.flatten_cons, encodeRune_fixRune] at ih ⊢
      rw [ih]
  exact this _


theorem encodeRune_decodeRune (b : Nat) (rest : List Nat)
    (h : ¬ ((decodeRune (b :: rest)).1 = 0xFFFD ∧ (decodeRune (b :: rest)).2 = 1)) :
    encodeRune (decodeRune (b :: rest)).1 ++ (b :: rest).drop (decodeRune (b :: rest)).2
      = b :: rest := by
  unfold decodeRune at h ⊢
  by_cases h1 : b < 0x80
  · simp [h1, encodeRune]
  · simp only [h1, if_false] at h ⊢
    by_cases h2 : 0xC2 ≤ b ∧ b ≤ 0xDF
    · simp only [h2, and_self, if_true] at h ⊢
      cases rest with
      | nil => simp at h
      | cons b1 rest =>
        simp only [isCont] at h ⊢
        by_cases c1 : 0x80 ≤ b1 ∧ b1 ≤ 0xBF
        · simp only [c1, and_self, decide_True, if_true]
          have e1 : ¬ ((b - 0xC0) * 64 + (b1 - 0x80) < 0x80) := by omega
          have e2 : (b - 0xC0) * 64 + (b1 - 0x80) < 0x800 := by omega
          simp only [encodeRune, e1, e2, if_true, if_false]
          have e3 : 0xC0 + ((b - 0xC0) * 64 + (b1 - 0x80)) / 64 = b := by omega
          have e4 : 0x80 + ((b - 0xC0) * 64 + (b1 - 0x80)) % 64 = b1 := by omega
          simp [e3, e4]
        · simp [c1] at h
    · simp only [h2, if_false] at h ⊢
      by_cases h3 : 0xE0 ≤ b ∧ b ≤ 0xEF
      · simp only [h3, and_self, if_true] at h ⊢
        match rest, h with
        | [], h => simp at h
        | [_], h => simp at h
        | b1 :: b2 :: rest, h =>
          simp only [isCont, decide_eq_true_eq] at h ⊢
          by_cases c1 : (if b = 0xE0 then 0xA0 else 0x80) ≤ b1 ∧
              b1 ≤ (if b = 0xED then 0x9F else 0xBF) ∧ (0x80 ≤ b2 ∧ b2 ≤ 0xBF)
          · simp only [c1, and_self, if_true]
            obtain ⟨c1a, c1b, c1c⟩ := c1
            have lo : (if b = 0xE0 then 0xA0 else 0x80) ≥ 0x80 := by split <;> omega
            have hi : (if b = 0xED then 0x9F else 0xBF) ≤ 0xBF := by split <;> omega
            have lo' : b = 0xE0 → 0xA0 ≤ b1 := by intro e; simpa [e] using c1a
            have hi' : b = 0xED → b1 ≤ 0x9F := by intro e; simpa [e] using c1b
            have e1 : ¬ ((b - 0xE0) * 4096 + (b1 - 0x80) * 64 + (b2 - 0x80) < 0x80) := by omega
            have e2 : ¬ ((b - 0xE0) * 4096 + (b1 - 0x80) * 64 + (b2 - 0x80) < 0x800) := by omega
            have e3 : ¬ ((0xD800 ≤ (b - 0xE0) * 4096 + (b1 - 0x80) * 64 + (b2 - 0x80) ∧
                (b - 0xE0) * 4096 + (b1 - 0x80) * 64 + (b2 - 0x80) ≤ 0xDFFF) ∨
                0x10FFFF < (b - 0xE0) * 4096 + (b1 - 0x80) * 64 + (b2 - 0x80)) := by omega
            have e4 : (b - 0xE0) * 4096 + (b1 - 0x80) * 64 + (b2 - 0x80) < 0x10000 := by omega
            simp only [encodeRune, e1, e2, e3, e4, if_true, if_false]
            have f1 : 0xE0 + ((b - 0xE0) * 4096 + (b1 - 0x80) * 64 + (b2 - 0x80)) / 4096 = b := by
              omega
            have f2 : 0x80 + ((b - 0xE0) * 4096 + (b1 - 0x80) * 64 + (b2 - 0x80)) / 64 % 64
                = b1 := by omega
            have f3 : 0x80 + ((b - 0xE0) * 4096 + (b1 - 0x80) * 64 + (b2 - 0x80)) % 64 = b2 := by
              omega
            simp [f1, f2, f3]
          · simp [c1] at h
      · simp only [h3, if_false] at h ⊢
        by_cases h4 : 0xF0 ≤ b ∧ b ≤ 0xF4
        · simp only [h4, and_self, if_true] at h ⊢
          match rest, h with
          | [], h => simp at h
          | [_], h => simp at h
          | [_, _], h => simp at h
          | b1 :: b2 :: b3 :: rest, h =>
            simp only [isCont, decide_eq_true_eq] at h ⊢
            by_cases c1 : (if b = 0xF0 then 0x90 else 0x80) ≤ b1 ∧
                b1 ≤ (if b = 0xF4 then 0x8F else 0xBF) ∧ (0x80 ≤ b2 ∧ b2 ≤ 0xBF) ∧
                (0x80 ≤ b3 ∧ b3 ≤ 0xBF)
            · simp only [c1, and_self, if_true]
              obtain ⟨c1a, c1b, c1c, c1d⟩ := c1
              have lo : (if b = 0xF0 then 0x90 else 0x80) ≥ 0x80 := by split <;> omega
              have hi : (if b = 0xF4 then 0x8F else 0xBF) ≤ 0xBF := by split <;> omega
              have lo' : b = 0xF0 → 0x90 ≤ b1 := by intro e; simpa [e] using c1a
              have hi' : b = 0xF4 → b1 ≤ 0x8F := by intro e; simpa [e] using c1b
              generalize hr : (b - 0xF0) * 262144 + (b1 - 0x80) * 4096 + (b2 - 0x80) * 64
                + (b3 - 0x80) = r
              have e1 : ¬ (r < 0x80) := by omega
              have e2 : ¬ (r < 0x800) := by omega
              have e3 : ¬ ((0xD800 ≤ r ∧ r ≤ 0xDFFF) ∨ 0x10FFFF < r) := by omega
              have e4 : ¬ (r < 0x10000) := by omega
              simp only [encodeRune, e1, e2, e3, e4, if_true, if_false]
              have f1 : 0xF0 + r / 262144 = b := by omega
              have f2 : 0x80 + r / 4096 % 64 = b1 := by omega
              have f3 : 0x80 + r / 64 % 64 = b2 := by omega
              have f4 : 0x80 + r % 64 = b3 := by omega
              simp [f1, f2, f3, f4]
            · simp [c1] at h
        · simp [h4] at h

theorem ofRunes_cons (r : Nat) (rs : List Nat) : ofRunes (r :: rs) = encodeRune r ++ ofRunes rs := by
  simp [ofRunes]

theorem ofRunes_toRunesAux (n : Nat) :
    ∀ s : List Nat, validUTF8Aux n s = true → ofRunes (toRunesAux n s) = s := by
  induction n with
  | zero =>
    intro s h
    cases s with
    | nil => rfl
    | cons b rest => simp [validUTF8Aux] at h
  | succ n ih =>
    intro s h
    cases s with
    | nil => rfl
    | cons b rest =>
      simp only [validUTF8Aux, Bool.and_eq_true, Bool.not_eq_true', decide_eq_false_iff_not] at h
      simp only [toRunesAux, ofRunes_cons]
      rw [ih _ h.2]
      exact encodeRune_decodeRune b rest h.1

theorem coerceUTF8_of_valid (s : GoString) (h : validUTF8 s = true) : coerceUTF8 s = s :=
  ofRunes_toRunesAux s.length s h

theorem encodeRune_length_one (r : Nat) (h : (encodeRune r).length = 1) : r < 0x80 := by
  unfold encodeRune at h
  split_ifs at h <;> simp at h
  assumption

theorem validUTF8Aux_ofRunes (rs : List Nat) :
    ∀ n, (ofRunes rs).length ≤ n → validUTF8Aux n (ofRunes rs) = true := by
  induction rs with
  | nil =>
    intro n _
    cases n <;> simp [ofRunes, validUTF8Aux]
  | cons r rs ih =>
    intro n hn
    have hdec := decodeRune_encodeRune r (ofRunes rs)
    rw [ofRunes_cons] at hn ⊢
    cases henc : encodeRune r with
    | nil => exact absurd henc (encodeRune_ne_nil r)
    | cons b t =>
      have hlen := encodeRune_length_one r
      rw [henc] at hn hdec hlen
      cases n with
      | zero => simp at hn
      | succ n =>
        simp only [List.cons_append] at hdec ⊢
        unfold validUTF8Aux
        rw [hdec]
        have hd : List.drop (b :: t).length (b :: (t ++ ofRunes rs)) = ofRunes rs := by
          rw [← List.cons_append]
          exact List.drop_left _ _
        simp only [hd, Bool.and_eq_true, Bool.not_eq_true', decide_eq_false_iff_not]
        refine ⟨?_, ih n ?_⟩
        · rintro ⟨h1, h2⟩
          have := hlen h2
          unfold fixRune at h1
          split at h1 <;> omega
        · simp only [List.length_cons, List.length_append] at hn
          omega

theorem validUTF8_ofRunes (rs : List Nat) : validUTF8 (ofRunes rs) = true :=
  validUTF8Aux_ofRunes rs _ (Nat.le_refl _)

theorem coerceUTF8_valid (s : GoString) : validUTF8 (coerceUTF8 s) = true :=
  validUTF8_ofRunes _

theorem time_asStored_of_plain (t : Time) (h : t.Plain) : t.asStored = t := by
  obtain ⟨wall, loc, mono⟩ := t
  obtain ⟨h1, h2⟩ := h
  simp only at h1 h2
  subst h1
  cases loc with
  | UTC => rfl
  | Zone o =>
    have : o ≠ 0 := fun e => h2 (e ▸ rfl)
    simp [Time.asStored, Loc.offset, this]

theorem time_asStored_plain (t : Time) : t.asStored.Plain := by
  refine ⟨rfl, ?_⟩
  simp only [Time.asStored]
  split
  · simp
  · rename_i h
    intro e
    simp only [Loc.Zone.injEq] at e
    exact h e

theorem subject_asStored_of_plain (s : Subject) (h : s.Plain) : s.asStored = s := by
  obtain ⟨id, name, description⟩ := s
  simp only [Subject.asStored, coerceUTF8_of_valid _ h.1, coerceUTF8_of_valid _ h.2]

theorem entry_asStored_of_plain (e : Entry) (h : e.Plain) : e.asStored = e := by
  obtain ⟨id, title, c, u⟩ := e
  simp only [Entry.asStored, coerceUTF8_of_valid _ h.1, time_asStored_of_plain _ h.2.1,
    time_asStored_of_plain _ h.2.2]

theorem subject_asStored_plain (s : Subject) : s.asStored.Plain :=
  ⟨coerceUTF8_valid _, coerceUTF8_valid _⟩

theorem entry_asStored_plain (e : Entry) : e.asStored.Plain :=
  ⟨coerceUTF8_valid _, time_asStored_plain _, time_asStored_plain _⟩

theorem GoMap.mapValues_of_fixed {V : Type} (f : V → V) (m : GoMap V)
    (h : ∀ l, m = some l → ∀ p ∈ l, f p.2 = p.2) : GoMap.mapValues f m = m := by
  cases m with
  | none => rfl
  | some l =>
    simp only [GoMap.mapValues, Option.some.injEq]
    have := h l rfl
    clear h
    induction l with
    | nil => rfl
    | cons p t ih =>
      simp only [List.map_cons, List.cons.injEq]
      refine ⟨?_, ih (fun q hq => this q (List.mem_cons_of_mem _ hq))⟩
      rw [this p (List.mem_cons_self _ _)]

theorem storage_asStored_of_plain (st : Storage) (h : st.Plain) : st.asStored = st := by
  obtain ⟨root, ⟨sm⟩, ⟨em⟩⟩ := st
  obtain ⟨h1, h2⟩ := h
  simp only at h1 h2
  have e1 : GoMap.mapValues Subject.asStored sm = sm :=
    GoMap.mapValues_of_fixed _ _ (fun l hl p hp => subject_asStored_of_plain _ (h1 l hl p hp))
  have e2 : GoMap.mapValues (GoMap.mapValues Entry.asStored) em = em :=
    GoMap.mapValues_of_fixed _ _ (fun l hl p hp =>
      GoMap.mapValues_of_fixed _ _ (fun m hm q hq =>
        entry_asStored_of_plain _ (h2 l hl p hp m hm q hq)))
  simp only [Storage.asStored, SubjectsMetadata.asStored, EntriesMetadata.asStored, e1, e2]

theorem storage_asStored_plain (st : Storage) : st.asStored.Plain := by
  obtain ⟨root, ⟨sm⟩, ⟨em⟩⟩ := st
  constructor
  · intro l hl p hp
    cases sm with
    | none => simp [Storage.asStored, SubjectsMetadata.asStored, GoMap.mapValues] at hl
    | some l0 =>
      simp only [Storage.asStored, SubjectsMetadata.asStored, GoMap.mapValues,
        Option.some.injEq] at hl
      subst hl
      obtain ⟨q, -, rfl⟩ := List.mem_map.1 hp
      exact subject_asStored_plain _
  · intro l hl p hp m hm q hq
    cases em with
    | none => simp [Storage.asStored, EntriesMetadata.asStored, GoMap.mapValues] at hl
    | some l0 =>
      simp only [Storage.asStored, EntriesMetadata.asStored, GoMap.mapValues,
        Option.some.injEq] at hl
      subst hl
      obtain ⟨p0, -, rfl⟩ := List.mem_map.1 hp
      simp only at hm
      cases hp0 : p0.2 with
      | none => simp [hp0, GoMap.mapValues] at hm
      | some m0 =>
        simp only [hp0, GoMap.mapValues, Option.some.injEq] at hm
        subst hm
        obtain ⟨q0, -, rfl⟩ := List.mem_map.1 hq
        exact entry_asStored_plain _

/-! ## Decoding what was encoded -/

theorem decodeSubject_encodeSubject (s : Subject) :
    decodeSubject (encodeSubject s) = .ok s.asStored := by
  rfl

theorem decodeEntry_encodeEntry (e : Entry) :
    decodeEntry (encodeEntry e) = .ok e.asStored := by
  rfl

theorem Items.put_last {V : Type} (k : UUID) (v : V) (acc : Items V)
    (h : ∀ p ∈ acc, p.1 < k) : Items.put k v acc = acc ++ [(k, v)] := by
  induction acc with
  | nil => rfl
  | cons p t ih =>
    obtain ⟨a, b⟩ := p
    have ha : a < k := h (a, b) (List.mem_cons_self _ _)
    have h1 : ¬ k < a := Nat.lt_asymm ha
    have h2 : ¬ k = a := fun e => Nat.lt_irrefl a (e ▸ ha)
    simp only [Items.put, h1, h2, if_false, List.cons_append]
    rw [ih (fun p hp => h p (List.mem_cons_of_mem _ hp))]

theorem decodeItems_encode {V : Type} (enc : V → JSON) (dec : JSON → Except Error V)
    (f : V → V) (l : Items V) : ∀ acc : Items V, (∀ q ∈ acc, ∀ p ∈ l, q.1 < p.1) →
      Items.Sorted l → (∀ p ∈ l, dec (enc p.2) = .ok (f p.2)) →
      (l.map (fun p => (Key.id p.1, enc p.2))).foldlM (decodeItem dec) acc
        = .ok (acc ++ l.map (fun p => (p.1, f p.2))) := by
  induction l with
  | nil => intro acc _ _ _; simp [List.foldlM, pure, Except.pure]
  | cons p t ih =>
    intro acc ha hs hd
    obtain ⟨k, v⟩ := p
    have hlt : ∀ q ∈ acc, q.1 < k := fun q hq => ha q hq (k, v) (List.mem_cons_self _ _)
    have hv : dec (enc v) = .ok (f v) := hd (k, v) (List.mem_cons_self _ _)
    have hkt : ∀ p ∈ t, k < p.1 := (List.pairwise_cons.1 hs).1
    simp only [List.map_cons, List.foldlM_cons, decodeItem, hv, bind, Except.bind]
    rw [Items.put_last k (f v) acc hlt]
    have := ih (acc ++ [(k, f v)])
      (by
        intro q hq p hp
        rcases List.mem_append.1 hq with hq | hq
        · exact ha q hq p (List.mem_cons_of_mem _ hp)
        · simp only [List.mem_singleton] at hq
          subst hq
          exact hkt p hp)
      (List.pairwise_cons.1 hs).2
      (fun q hq => hd q (List.mem_cons_of_mem _ hq))
    simpa using this

theorem decodeMap_encodeMap {V : Type} (enc : V → JSON) (dec : JSON → Except Error V)
    (f : V → V) (m : GoMap V) (hs : GoMap.Sorted m)
    (hd : ∀ l, m = some l → ∀ p ∈ l, dec (enc p.2) = .ok (f p.2)) :
    decodeMap dec none (encodeMap enc m) = .ok (GoMap.mapValues f m) := by
  cases m with
  | none => rfl
  | some l =>
    have := decodeItems_encode enc dec f l [] (by simp) (hs l rfl) (hd l rfl)
    simp only [List.nil_append] at this
    simp [decodeMap, encodeMap, GoMap.mapValues, this]

theorem unmarshalSubjects_marshalSubjects (m : SubjectsMetadata)
    (hs : GoMap.Sorted m.Subjects) :
    unmarshalSubjects (marshalSubjects m) = .ok m.asStored := by
  have := decodeMap_encodeMap encodeSubject decodeSubject Subject.asStored m.Subjects hs
    (fun _ _ p _ => decodeSubject_encodeSubject p.2)
  simp [unmarshalSubjects, marshalSubjects, List.foldlM, decodeSubjectsField, this, bind,
    Except.bind, pure, Except.pure, SubjectsMetadata.asStored]

theorem unmarshalEntries_marshalEntries (m : EntriesMetadata)
    (hs : GoMap.Sorted m.Entries) (hi : ∀ l, m.Entries = some l → ∀ p ∈ l, GoMap.Sorted p.2) :
    unmarshalEntries (marshalEntries m) = .ok m.asStored := by
  have := decodeMap_encodeMap (encodeMap encodeEntry) (decodeMap decodeEntry none)
    (GoMap.mapValues Entry.asStored) m.Entries hs
    (fun l hl p hp => decodeMap_encodeMap encodeEntry decodeEntry Entry.asStored p.2
      (hi l hl p hp) (fun _ _ q _ => decodeEntry_encodeEntry q.2))
  simp [unmarshalEntries, marshalEntries, List.foldlM, decodeEntriesField, this, bind,
    Except.bind, pure, Except.pure, EntriesMetadata.asStored]

theorem unmarshalSubjects_marshalEntries (m : EntriesMetadata) :
    unmarshalSubjects (marshalEntries m) = .ok ⟨none⟩ := by
  rfl

/-! ## Loading what was flushed -/

theorem FS.next_faults_nil (fs : FS) (h : fs.faults = []) : fs.next.faults = [] := by
  simp [FS.next, h]

theorem FS.fails_nil (fs : FS) (h : fs.faults = []) : fs.fails = false := by
  simp [FS.fails, h]

theorem osOpen_found (fs : FS) (p : Path) (n : Node) (hf : fs.faults = [])
    (hn : fs.nodes p = some n) : osOpen fs p = (fs.next, .ok n) := by
  simp [osOpen, FS.fails_nil fs hf, hn]

theorem ioReadAll_file (fs : FS) (d : Data) (hf : fs.faults = []) :
    ioReadAll fs (.file d) = (fs.next, .ok d) := by
  simp [ioReadAll, FS.fails_nil fs hf]

theorem readEntries_mirrored (fs : FS) (root : Path) (em : EntriesMetadata)
    (hf : fs.faults = []) (hn : fs.nodes (entriesPath root) = some (.file (.doc (marshalEntries em))))
    (hs : GoMap.Sorted em.Entries) (hi : ∀ l, em.Entries = some l → ∀ p ∈ l, GoMap.Sorted p.2) :
    readEntries fs root = (fs.next.next, .ok (some ⟨none⟩, em.asStored)) := by
  simp [readEntries, osOpen_found fs _ _ hf hn, ioReadAll_file fs.next _ (fs.next_faults_nil hf),
    unmarshalSubjectsData, unmarshalEntriesData, unmarshalSubjects_marshalEntries,
    unmarshalEntries_marshalEntries em hs hi]

theorem readSubjects_mirrored (fs : FS) (root : Path) (sm : SubjectsMetadata)
    (hf : fs.faults = [])
    (hn : fs.nodes (subjectsPath root) = some (.file (.doc (marshalSubjects sm))))
    (hs : GoMap.Sorted sm.Subjects) :
    readSubjects fs root = (fs.next.next, .ok sm.asStored) := by
  simp [readSubjects, osOpen_found fs _ _ hf hn, ioReadAll_file fs.next _ (fs.next_faults_nil hf),
    unmarshalSubjectsData, unmarshalSubjects_marshalSubjects sm hs]

theorem reloadMetadata_mirrored (w : World) (hf : w.fs.faults = []) (hm : Mirrored w)
    (hc : Canonical w.st) :
    reloadMetadata w.fs w.st.storageRoot
      = (w.fs.next.next.next.next,
          .ok (w.st.subjectsMetadata.asStored, w.st.entriesMetadata.asStored)) := by
  have h1 := readEntries_mirrored w.fs w.st.storageRoot w.st.entriesMetadata hf hm.2 hc.2.1 hc.2.2
  have h2 := readSubjects_mirrored w.fs.next.next w.st.storageRoot w.st.subjectsMetadata
    (FS.next_faults_nil _ (FS.next_faults_nil _ hf)) hm.1 hc.1
  simp [reloadMetadata, h1, h2]

theorem storeFile_parent (fs : FS) (p : Path) (d : Data) (h : (storeFile fs p d).2 = none) :
    fs.nodes p.dropLast = some .dir := by
  unfold storeFile at h
  split at h
  · simp at h
  · split at h
    · assumption
    · simp at h
    · simp at h

theorem osWriteFile_parent (fs : FS) (p : Path) (d : Data) (h : (osWriteFile fs p d).2 = none) :
    fs.nodes p.dropLast = some .dir := by
  unfold osWriteFile at h
  split at h
  · simp at h
  · exact storeFile_parent fs p d h

theorem osWriteFile_over_file (fs : FS) (p : Path) (d d' : Data) (hf : fs.faults = [])
    (hp : fs.nodes p = some (.file d')) (hd : fs.nodes p.dropLast = some .dir) :
    (osWriteFile fs p d).2 = none := by
  simp [osWriteFile, FS.fails_nil fs hf, storeFile, hp, hd]

theorem osWriteFile_faults_nil (fs : FS) (p : Path) (d : Data) (hf : fs.faults = []) :
    (osWriteFile fs p d).1.faults = [] := by
  unfold osWriteFile storeFile
  split
  · simp [FS.next, hf]
  · split
    · simp [FS.next, hf]
    · split <;> simp [FS.next, hf]

theorem metadataDir_of_flush (w w1 : World) (hflush : flushMetadata w = (w1, none)) :
    w1.fs.nodes (w.st.storageRoot ++ ["metadata"]) = some .dir := by
  rcases h1 : osWriteFile w.fs (subjectsPath w.st.storageRoot)
      (.doc (marshalSubjects w.st.subjectsMetadata)) with ⟨fs1, _ | e1⟩
  · rcases h2 : osWriteFile fs1 (entriesPath w.st.storageRoot)
        (.doc (marshalEntries w.st.entriesMetadata)) with ⟨fs2, _ | e2⟩
    · have a0 := osWriteFile_parent w.fs _ (.doc (marshalSubjects w.st.subjectsMetadata))
        (by rw [h1])
      have a1 := osWriteFile_nodes_ne w.fs (subjectsPath w.st.storageRoot)
        (.doc (marshalSubjects w.st.subjectsMetadata)) (w.st.storageRoot ++ ["metadata"])
        (by simp [subjectsPath])
      have a2 := osWriteFile_nodes_ne fs1 (entriesPath w.st.storageRoot)
        (.doc (marshalEntries w.st.entriesMetadata)) (w.st.storageRoot ++ ["metadata"])
        (by simp [entriesPath])
      rw [h1] at a1
      rw [h2] at a2
      simp only [flushMetadata, h1, h2, Prod.mk.injEq, and_true] at hflush
      subst hflush
      have hd : (subjectsPath w.st.storageRoot).dropLast = w.st.storageRoot ++ ["metadata"] := by
        simp [subjectsPath, List.dropLast_append_cons]
      rw [hd] at a0
      exact a2.trans (a1.trans a0)
    · simp [flushMetadata, h1, h2] at hflush
  · simp [flushMetadata, h1] at hflush

theorem flushMetadata_again (w : World) (hf : w.fs.faults = []) (hm : Mirrored w)
    (hd : w.fs.nodes (w.st.storageRoot ++ ["metadata"]) = some .dir) :
    (flushMetadata w).2 = none := by
  have hd1 : (subjectsPath w.st.storageRoot).dropLast = w.st.storageRoot ++ ["metadata"] := by
    simp [subjectsPath, List.dropLast_append_cons]
  have hd2 : (entriesPath w.st.storageRoot).dropLast = w.st.storageRoot ++ ["metadata"] := by
    simp [entriesPath, List.dropLast_append_cons]
  have a1 := osWriteFile_over_file w.fs (subjectsPath w.st.storageRoot)
    (.doc (marshalSubjects w.st.subjectsMetadata)) _ hf hm.1 (hd1 ▸ hd)
  rcases h1 : osWriteFile w.fs (subjectsPath w.st.storageRoot)
      (.doc (marshalSubjects w.st.subjectsMetadata)) with ⟨fs1, _ | e1⟩
  · have f1 := osWriteFile_faults_nil w.fs (subjectsPath w.st.storageRoot)
      (.doc (marshalSubjects w.st.subjectsMetadata)) hf
    have n1 := osWriteFile_nodes_ne w.fs (subjectsPath w.st.storageRoot)
      (.doc (marshalSubjects w.st.subjectsMetadata)) (entriesPath w.st.storageRoot)
      (Ne.symm (subjectsPath_ne_entriesPath _))
    have n2 := osWriteFile_nodes_ne w.fs (subjectsPath w.st.storageRoot)
      (.doc (marshalSubjects w.st.subjectsMetadata)) (w.st.storageRoot ++ ["metadata"])
      (by simp [subjectsPath])
    rw [h1] at f1 n1 n2
    have a2 := osWriteFile_over_file fs1 (entriesPath w.st.storageRoot)
      (.doc (marshalEntries w.st.entriesMetadata)) _ f1 (n1.trans hm.2)
      (hd2 ▸ (n2.trans hd))
    rcases h2 : osWriteFile fs1 (entriesPath w.st.storageRoot)
        (.doc (marshalEntries w.st.entriesMetadata)) with ⟨fs2, _ | e2⟩
    · simp [flushMetadata, h1, h2]
    · rw [h2] at a2
      simp at a2
  · rw [h1] at a1
    simp at a1

theorem flushMetadata_over_files (w : World) (hf : w.fs.faults = []) (d1 d2 : Data)
    (hs : w.fs.nodes (subjectsPath w.st.storageRoot) = some (.file d1))
    (he : w.fs.nodes (entriesPath w.st.storageRoot) = some (.file d2))
    (hd : w.fs.nodes (w.st.storageRoot ++ ["metadata"]) = some .dir) :
    (flushMetadata w).2 = none := by
  have hd1 : (subjectsPath w.st.storageRoot).dropLast = w.st.storageRoot ++ ["metadata"] := by
    simp [subjectsPath, List.dropLast_append_cons]
  have hd2 : (entriesPath w.st.storageRoot).dropLast = w.st.storageRoot ++ ["metadata"] := by
    simp [entriesPath, List.dropLast_append_cons]
  have a1 := osWriteFile_over_file w.fs (subjectsPath w.st.storageRoot)
    (.doc (marshalSubjects w.st.subjectsMetadata)) _ hf hs (hd1 ▸ hd)
  rcases h1 : osWriteFile w.fs (subjectsPath w.st.storageRoot)
      (.doc (marshalSubjects w.st.subjectsMetadata)) with ⟨fs1, _ | e1⟩
  · have f1 := osWriteFile_faults_nil w.fs (subjectsPath w.st.storageRoot)
      (.doc (marshalSubjects w.st.subjectsMetadata)) hf
    have n1 := osWriteFile_nodes_ne w.fs (subjectsPath w.st.storageRoot)
      (.doc (marshalSubjects w.st.subjectsMetadata)) (entriesPath w.st.storageRoot)
      (Ne.symm (subjectsPath_ne_entriesPath _))
    have n2 := osWriteFile_nodes_ne w.fs (subjectsPath w.st.storageRoot)
      (.doc (marshalSubjects w.st.subjectsMetadata)) (w.st.storageRoot ++ ["metadata"])
      (by simp [subjectsPath])
    rw [h1] at f1 n1 n2
    have a2 := osWriteFile_over_file fs1 (entriesPath w.st.storageRoot)
      (.doc (marshalEntries w.st.entriesMetadata)) _ f1 (n1.trans he)
      (hd2 ▸ (n2.trans hd))
    rcases h2 : osWriteFile fs1 (entriesPath w.st.storageRoot)
        (.doc (marshalEntries w.st.entriesMetadata)) with ⟨fs2, _ | e2⟩
    · simp [flushMetadata, h1, h2]
    · rw [h2] at a2
      simp at a2
  · rw [h1] at a1
    simp at a1

theorem newStorage_restart (w : World) (hf : w.fs.faults = []) (hm : Mirrored w)
    (hc : Canonical w.st) (hd : w.fs.nodes (w.st.storageRoot ++ ["metadata"]) = some .dir)
    (hr : w.fs.nodes w.st.storageRoot = some .dir) :
    (NewStorage w.fs w.st.storageRoot).2 = .ok w.st.asStored := by
  have hf1 : w.fs.next.faults = [] := FS.next_faults_nil _ hf
  have hstat : osStat w.fs w.st.storageRoot = (w.fs.next, .ok .dir) := by
    simp [osStat, FS.fails_nil _ hf, hr]
  have hre := reloadMetadata_mirrored ⟨w.st, w.fs.next⟩ hf1 hm hc
  have hf5 : w.fs.next.next.next.next.next.faults = [] :=
    FS.next_faults_nil _ (FS.next_faults_nil _ (FS.next_faults_nil _ (FS.next_faults_nil _ hf1)))
  have hfl := flushMetadata_over_files ⟨w.st.asStored, w.fs.next.next.next.next.next⟩ hf5
    _ _ hm.1 hm.2 hd
  have hst := flushMetadata_st ⟨w.st.asStored, w.fs.next.next.next.next.next⟩
  have heta : (⟨w.st.storageRoot, w.st.subjectsMetadata.asStored,
      w.st.entriesMetadata.asStored⟩ : Storage) = w.st.asStored := rfl
  simp only [NewStorage, hstat, newStorageLoad, Node.IsDir]
  simp only at hre
  simp only [Bool.not_true, Bool.false_eq_true, if_false, hre, heta]
  rcases hx : flushMetadata ⟨w.st.asStored, w.fs.next.next.next.next.next⟩ with ⟨w2, _ | e⟩
  · rw [hx] at hst
    simpa using hst
  · rw [hx] at hfl
    simp at hfl

theorem newEntry_world1 : NewEntry world1 1 "Notes" 7 100 101 = some (world2, 7, none) := by
  rfl

theorem world2_st : world2.st
    = ⟨["data"], ⟨some [(1, ⟨1, "Math", "desc"⟩)]⟩, ⟨some [(1, some [(7, ⟨7, "Notes", 100, 101⟩)])]⟩⟩ := by
  rfl

theorem world2_canonical : Canonical world2.st := by
  rw [world2_st]
  refine ⟨?_, ?_, ?_⟩
  · intro l h
    simp only [Option.some.injEq] at h
    subst h
    simp [Items.Sorted]
  · intro l h
    simp only [Option.some.injEq] at h
    subst h
    simp [Items.Sorted]
  · intro l h p hp
    simp only [Option.some.injEq] at h
    subst h
    simp only [List.mem_singleton] at hp
    subst hp
    intro l h
    simp only [Option.some.injEq] at h
    subst h
    simp [Items.Sorted]

theorem world2_plain : world2.st.Plain := by
  rw [world2_st]
  constructor
  · intro l h p hp
    simp only [Option.some.injEq] at h
    subst h
    simp only [List.mem_singleton] at hp
    subst hp
    exact ⟨by decide, by decide⟩
  · intro l h p hp m hm q hq
    simp only [Option.some.injEq] at h
    subst h
    simp only [List.mem_singleton] at hp
    subst hp
    simp only [Option.some.injEq] at hm
    subst hm
    simp only [List.mem_singleton] at hq
    subst hq
    exact ⟨by decide, ⟨rfl, by decide⟩, ⟨rfl, by decide⟩⟩

/-- C4, as stated, fails: `NewSubject` with the one-byte name `0xFF` and
`NewEntry` with clock readings that carry a monotonic reading (the second in
a zone of offset zero) both return no error; the index flushes, and
`reloadMetadata` on the same root yields the name `EF BF BD` (U+FFFD) and
times without monotonic reading, the second in UTC, which is not the index
that was flushed. -/
theorem reload_after_flush_differs :
    NewSubject world0 1 [0xFF] "d" = some (worldInvalidName, 1, none) ∧
    NewEntry worldInvalidName 1 "Notes" 7 ⟨100, .Zone 60, some 5⟩ ⟨101, .Zone 0, some 6⟩
      = some (worldLive, 7, none) ∧
    worldLive.st.subjectsMetadata = ⟨some [(1, ⟨1, [0xFF], "d"⟩)]⟩ ∧
    worldLive.st.entriesMetadata
      = ⟨some [(1, some [(7, ⟨7, "Notes", ⟨100, .Zone 60, some 5⟩, ⟨101, .Zone 0, some 6⟩⟩)])]⟩ ∧
    flushMetadata worldLive = ((flushMetadata worldLive).1, none) ∧
    (flushMetadata worldLive).1.fs.faults = [] ∧
    (reloadMetadata (flushMetadata worldLive).1.fs ["data"]).2
      = .ok (⟨some [(1, ⟨1, [0xEF, 0xBF, 0xBD], "d"⟩)]⟩,
          ⟨some [(1, some [(7, ⟨7, "Notes", ⟨100, .Zone 60, none⟩, ⟨101, .UTC, none⟩⟩)])]⟩) ∧
    (reloadMetadata (flushMetadata worldLive).1.fs ["data"]).2
      ≠ .ok (worldLive.st.subjectsMetadata, worldLive.st.entriesMetadata) := by
  refine ⟨rfl, rfl, rfl, rfl, rfl, rfl, rfl, ?_⟩
  have h1 : (reloadMetadata (flushMetadata worldLive).1.fs ["data"]).2
      = .ok (⟨some [(1, ⟨1, [0xEF, 0xBF, 0xBD], "d"⟩)]⟩,
          ⟨some [(1, some [(7, ⟨7, "Notes", ⟨100, .Zone 60, none⟩, ⟨101, .UTC, none⟩⟩)])]⟩) := rfl
  have h2 : worldLive.st.subjectsMetadata = ⟨some [(1, ⟨1, [0xFF], "d"⟩)]⟩ := rfl
  rw [h1, h2]
  intro h
  simp at h

/-- C4, amended: for every in-memory index in canonical form, once
`flushMetadata` has written it without error, `reloadMetadata` on the same
root (no I/O failure coming) succeeds and yields the index in its stored
form: every string with each invalid UTF-8 byte replaced by U+FFFD, every
time with its instant and offset kept, offset zero read back as UTC and the
monotonic reading dropped, nil maps kept nil; when the root is a directory,
`NewStorage` on that root returns the storage in that form.  When every
string of the index is valid UTF-8 and every time is plain, both give back
the very index that was flushed. -/
theorem reload_after_flush_is_stored_form (w w1 : World) (hc : Canonical w.st)
    (hflush : flushMetadata w = (w1, none)) (hf : w1.fs.faults = []) :
    (reloadMetadata w1.fs w.st.storageRoot).2
        = .ok (w.st.subjectsMetadata.asStored, w.st.entriesMetadata.asStored) ∧
      (w1.fs.nodes w.st.storageRoot = some .dir →
        (NewStorage w1.fs w.st.storageRoot).2 = .ok w.st.asStored) ∧
      (w.st.Plain →
        (reloadMetadata w1.fs w.st.storageRoot).2
            = .ok (w.st.subjectsMetadata, w.st.entriesMetadata) ∧
          (w1.fs.nodes w.st.storageRoot = some .dir →
            (NewStorage w1.fs w.st.storageRoot).2 = .ok w.st)) := by
  obtain ⟨hm, hst⟩ := flushMetadata_eq_ok hflush
  have hd := metadataDir_of_flush w w1 hflush
  have h1 := reloadMetadata_mirrored w1 hf hm (hst ▸ hc)
  rw [hst] at h1
  have h2 : w1.fs.nodes w.st.storageRoot = some .dir →
      (NewStorage w1.fs w.st.storageRoot).2 = .ok w.st.asStored := by
    intro hr
    have := newStorage_restart w1 hf hm (hst ▸ hc) (hst ▸ hd) (hst ▸ hr)
    rw [hst] at this
    exact this
  refine ⟨by rw [h1], h2, fun hp => ?_⟩
  have he := storage_asStored_of_plain w.st hp
  have e1 : w.st.subjectsMetadata.asStored = w.st.subjectsMetadata :=
    congrArg Storage.subjectsMetadata he
  have e2 : w.st.entriesMetadata.asStored = w.st.entriesMetadata :=
    congrArg Storage.entriesMetadata he
  refine ⟨by rw [h1, e1, e2], fun hr => ?_⟩
  rw [h2 hr, he]

theorem reload_after_flush_is_stored_form_witness :
    (reloadMetadata (flushMetadata world2).1.fs ["data"]).2
        = .ok (⟨some [(1, ⟨1, "Math", "desc"⟩)]⟩,
            ⟨some [(1, some [(7, ⟨7, "Notes", 100, 101⟩)])]⟩) ∧
      (NewStorage (flushMetadata world2).1.fs ["data"]).2 = .ok world2.st :=
  have h := (reload_after_flush_is_stored_form world2 (flushMetadata world2).1 world2_canonical
    rfl rfl).2.2 world2_plain
  ⟨h.1, h.2 rfl⟩

/-! ## Updates of subjects and entries -/

theorem result_of_map_st {α : Type} (o : Option (World × α)) (X : Storage)
    (h : o.map (fun r => r.1.st) = some X) : ∃ w' e, o = some (w', e) ∧ w'.st = X := by
  cases o with
  | none => simp at h
  | some r => exact ⟨r.1, r.2, rfl, by simpa using h⟩

/-- C5: for every world, every subject ID `id` present in the subjects map and
every payload, whatever ID the payload carries, `UpdateSubject(id, payload)`
returns, and afterwards the subject stored under `id` has ID `id` and the
payload's name and description, every other key of the subjects map reads as
before, and the entries metadata is unchanged. -/
theorem updateSubject_keeps_id (w : World) (id : UUID) (data : Subject)
    (h : SubjectExists w.st id = true) :
    ∃ w' e, UpdateSubject w id data = some (w', e) ∧
      GoMap.get w'.st.subjectsMetadata.Subjects id = some ⟨id, data.Name, data.Description⟩ ∧
      (∀ k, k ≠ id → GoMap.get w'.st.subjectsMetadata.Subjects k
        = GoMap.get w.st.subjectsMetadata.Subjects k) ∧
      w'.st.entriesMetadata = w.st.entriesMetadata := by
  cases hs : w.st.subjectsMetadata.Subjects with
  | none => simp [SubjectExists, GoMap.has, GoMap.get, hs] at h
  | some sm =>
    obtain ⟨w', e, hr, hst⟩ := result_of_map_st _ _ (updateSubject_st w id data sm hs h)
    refine ⟨w', e, hr, ?_, ?_, ?_⟩
    · simp [hst, GoMap.get, Items.get_put]
    · intro k hk
      simp [hst, GoMap.get, Items.get_put, hk]
    · rw [hst]

theorem updateSubject_keeps_id_witness :
    SubjectExists world2.st 1 = true ∧
    ∃ w' e, UpdateSubject world2 1 ⟨99, "Algebra", "new"⟩ = some (w', e) ∧
      GoMap.get w'.st.subjectsMetadata.Subjects 1 = some ⟨1, "Algebra", "new"⟩ ∧
      (∀ k, k ≠ 1 → GoMap.get w'.st.subjectsMetadata.Subjects k
        = GoMap.get world2.st.subjectsMetadata.Subjects k) ∧
      w'.st.entriesMetadata = world2.st.entriesMetadata :=
  ⟨by decide, updateSubject_keeps_id world2 1 ⟨99, "Algebra", "new"⟩ (by decide)⟩

theorem getEntry_setEntry (m m' : GoMap (GoMap Entry)) (subjectID id : UUID) (e : Entry)
    (h : setEntry m subjectID id e = some m') (s i : UUID) :
    getEntry m' s i = if s = subjectID ∧ i = id then some e else getEntry m s i := by
  cases m with
  | none => simp [setEntry] at h
  | some outer =>
    simp only [setEntry] at h
    split at h
    · rename_i inner hin
      simp only [Option.some.injEq] at h
      subst h
      simp only [getEntry, GoMap.get, Items.get_put]
      by_cases hs : s = subjectID
      · subst hs
        simp only [if_true, true_and, Items.get_put, hin]
      · simp [hs]
    · simp at h

theorem get_setEntry_ne (m m' : GoMap (GoMap Entry)) (subjectID id : UUID) (e : Entry)
    (h : setEntry m subjectID id e = some m') (k : UUID) (hk : k ≠ subjectID) :
    GoMap.get m' k = GoMap.get m k := by
  cases m with
  | none => simp [setEntry] at h
  | some outer =>
    simp only [setEntry] at h
    split at h
    · simp only [Option.some.injEq] at h
      subst h
      simp [GoMap.get, Items.get_put, hk]
    · simp at h

theorem setEntry_of_getEntry (m : GoMap (GoMap Entry)) (subjectID id : UUID) (old e : Entry)
    (h : getEntry m subjectID id = some old) : ∃ m', setEntry m subjectID id e = some m' := by
  cases m with
  | none => simp [getEntry, GoMap.get] at h
  | some outer =>
    simp only [getEntry, GoMap.get] at h
    split at h
    · rename_i inner hin
      exact ⟨some (Items.put subjectID (some (Items.put id e inner)) outer),
        by simp [setEntry, hin]⟩
    · simp at h

theorem getEntry_of_entryExists (st : Storage) (subjectID id : UUID)
    (he : EntryExists st subjectID id = true) :
    ∃ old, getEntry st.entriesMetadata.Entries subjectID id = some old := by
  unfold EntryExists at he
  split at he
  · simp at he
  · exact Option.isSome_iff_exists.1 he

/-- C8: for every world with an existing subject and an existing entry `old`
under it, `UpdateEntryMetadata` returns and leaves under the target the entry
with `old`'s ID and creation time, the payload's title and the new update
time; `UpdateEntryBody` returns and leaves `old` with only the update time
replaced; after either call every other entry reads as before, every other
key of the entries map holds the map it held, and the subjects metadata is
unchanged.  The payload's ID and timestamps play no role. -/
theorem entry_updates_frame (w : World) (subjectID id : UUID) (payload : Entry)
    (text : GoString) (now : Time) (hs : SubjectExists w.st subjectID = true)
    (he : EntryExists w.st subjectID id = true) :
    ∃ old, getEntry w.st.entriesMetadata.Entries subjectID id = some old ∧
      (∃ w' e, UpdateEntryMetadata w subjectID id payload now = some (w', e) ∧
        getEntry w'.st.entriesMetadata.Entries subjectID id
          = some ⟨old.ID, payload.Title, old.CreatedAt, now⟩ ∧
        (∀ s i, ¬ (s = subjectID ∧ i = id) →
          getEntry w'.st.entriesMetadata.Entries s i = getEntry w.st.entriesMetadata.Entries s i) ∧
        (∀ k, k ≠ subjectID →
          GoMap.get w'.st.entriesMetadata.Entries k = GoMap.get w.st.entriesMetadata.Entries k) ∧
        w'.st.subjectsMetadata = w.st.subjectsMetadata) ∧
      (∃ w' e, UpdateEntryBody w subjectID id text now = some (w', e) ∧
        getEntry w'.st.entriesMetadata.Entries subjectID id
          = some ⟨old.ID, old.Title, old.CreatedAt, now⟩ ∧
        (∀ s i, ¬ (s = subjectID ∧ i = id) →
          getEntry w'.st.entriesMetadata.Entries s i = getEntry w.st.entriesMetadata.Entries s i) ∧
        (∀ k, k ≠ subjectID →
          GoMap.get w'.st.entriesMetadata.Entries k = GoMap.get w.st.entriesMetadata.Entries k) ∧
        w'.st.subjectsMetadata = w.st.subjectsMetadata) := by
  obtain ⟨old, hold⟩ := getEntry_of_entryExists w.st subjectID id he
  refine ⟨old, hold, ?_, ?_⟩
  · obtain ⟨m', hset⟩ := setEntry_of_getEntry w.st.entriesMetadata.Entries subjectID id old
      { old with Title := payload.Title, UpdatedAt := now } hold
    obtain ⟨w', e, hr, hst⟩ := result_of_map_st _ _
      (updateEntryMetadata_st w subjectID id payload now old m' hs hold hset)
    refine ⟨w', e, hr, ?_, ?_, ?_, ?_⟩
    · simp [hst, getEntry_setEntry _ _ _ _ _ hset]
    · intro s i hne
      simp [hst, getEntry_setEntry _ _ _ _ _ hset, hne]
    · intro k hk
      simp [hst, get_setEntry_ne _ _ _ _ _ hset k hk]
    · rw [hst]
  · obtain ⟨m', hset⟩ := setEntry_of_getEntry w.st.entriesMetadata.Entries subjectID id old
      { old with UpdatedAt := now } hold
    obtain ⟨w', e, hr, hst⟩ := result_of_map_st _ _
      (updateEntryBody_st w subjectID id text now old m' hs hold hset)
    refine ⟨w', e, hr, ?_, ?_, ?_, ?_⟩
    · simp [hst, getEntry_setEntry _ _ _ _ _ hset]
    · intro s i hne
      simp [hst, getEntry_setEntry _ _ _ _ _ hset, hne]
    · intro k hk
      simp [hst, get_setEntry_ne _ _ _ _ _ hset k hk]
    · rw [hst]

theorem entry_updates_frame_witness :
    SubjectExists world2.st 1 = true ∧ EntryExists world2.st 1 7 = true ∧
    ∃ old, getEntry world2.st.entriesMetadata.Entries 1 7 = some old ∧
      (∃ w' e, UpdateEntryMetadata world2 1 7 ⟨55, "Renamed", 3, 4⟩ 200 = some (w', e) ∧
        getEntry w'.st.entriesMetadata.Entries 1 7
          = some ⟨old.ID, "Renamed", old.CreatedAt, 200⟩ ∧
        (∀ s i, ¬ (s = 1 ∧ i = 7) →
          getEntry w'.st.entriesMetadata.Entries s i
            = getEntry world2.st.entriesMetadata.Entries s i) ∧
        (∀ k, k ≠ 1 →
          GoMap.get w'.st.entriesMetadata.Entries k
            = GoMap.get world2.st.entriesMetadata.Entries k) ∧
        w'.st.subjectsMetadata = world2.st.subjectsMetadata) ∧
      (∃ w' e, UpdateEntryBody world2 1 7 "# Hi" 200 = some (w', e) ∧
        getEntry w'.st.entriesMetadata.Entries 1 7
          = some ⟨old.ID, old.Title, old.CreatedAt, 200⟩ ∧
        (∀ s i, ¬ (s = 1 ∧ i = 7) →
          getEntry w'.st.entriesMetadata.Entries s i
            = getEntry world2.st.entriesMetadata.Entries s i) ∧
        (∀ k, k ≠ 1 →
          GoMap.get w'.st.entriesMetadata.Entries k
            = GoMap.get world2.st.entriesMetadata.Entries k) ∧
        w'.st.subjectsMetadata = world2.st.subjectsMetadata) :=
  ⟨by decide, by decide,
   entry_updates_frame world2 1 7 ⟨55, "Renamed", 3, 4⟩ "# Hi" 200 (by decide) (by decide)⟩

/-! ## Removal of a subject -/

theorem GoMap.get_after_del {V : Type} (k : UUID) (m : GoMap V) (k' : UUID) :
    GoMap.get (GoMap.del k m) k' = if k' = k then none else GoMap.get m k' := by
  cases m with
  | none => simp [GoMap.del, GoMap.get]
  | some l => simp [GoMap.del, GoMap.get, Items.get_del]

theorem osRemoveAll_ok (fs : FS) (p q : Path) (h : (osRemoveAll fs p).2 = none)
    (hq : p <+: q) : (osRemoveAll fs p).1.nodes q = none := by
  unfold osRemoveAll at h ⊢
  split
  · rename_i hf
    simp [hf] at h
  · simp [hq]

/-- C7: for every world and every subject ID `id` present in it, after a
`RemoveSubject(id)` that returns no error: `SubjectExists(id)` is false,
`ListEntries(id)` is empty, `EntryExists(id, e)` is false for every `e`, no
path at or below `entries/<id>` exists in the file tree, every other key of
the subjects map and of the entries map reads as before, and every path
outside `entries/<id>` other than the two JSON files is untouched. -/
theorem removeSubject_cascades (w w' : World) (id : UUID)
    (hs : SubjectExists w.st id = true) (h : RemoveSubject w id = some (w', none)) :
    SubjectExists w'.st id = false ∧ ListEntries w'.st id = [] ∧
      (∀ e, EntryExists w'.st id e = false) ∧
      (∀ q, subjectDir w.st.storageRoot id <+: q → w'.fs.nodes q = none) ∧
      (∀ k, k ≠ id →
        GoMap.get w'.st.subjectsMetadata.Subjects k = GoMap.get w.st.subjectsMetadata.Subjects k ∧
        GoMap.get w'.st.entriesMetadata.Entries k = GoMap.get w.st.entriesMetadata.Entries k) ∧
      (∀ q, ¬ subjectDir w.st.storageRoot id <+: q → q ≠ subjectsPath w.st.storageRoot →
        q ≠ entriesPath w.st.storageRoot → w'.fs.nodes q = w.fs.nodes q) := by
  simp only [RemoveSubject, hs, Bool.not_true, Bool.false_eq_true, if_false] at h
  rcases hr : osRemoveAll w.fs (subjectDir w.st.storageRoot id) with ⟨fs1, _ | e1⟩
  · simp only [hr, Option.some.injEq] at h
    obtain ⟨-, hst⟩ := flushMetadata_eq_ok h
    have hnodes := fun q h1 h2 => flushMetadata_nodes
      ⟨⟨w.st.storageRoot, ⟨GoMap.del id w.st.subjectsMetadata.Subjects⟩,
        ⟨GoMap.del id w.st.entriesMetadata.Entries⟩⟩, fs1⟩ q h1 h2
    rw [h] at hnodes
    simp only at hnodes hst
    have hex : SubjectExists w'.st id = false := by
      simp [SubjectExists, GoMap.has, hst, GoMap.get_after_del]
    refine ⟨hex, by simp [ListEntries, hex], fun e => by simp [EntryExists, hex], ?_, ?_, ?_⟩
    · intro q hq
      have h1 : q ≠ subjectsPath w.st.storageRoot := fun e =>
        subjectDir_not_prefix_subjectsPath _ _ (e ▸ hq)
      have h2 : q ≠ entriesPath w.st.storageRoot := fun e =>
        subjectDir_not_prefix_entriesPath _ _ (e ▸ hq)
      rw [hnodes q h1 h2]
      have := osRemoveAll_ok w.fs _ q (by rw [hr]) hq
      rw [hr] at this
      exact this
    · intro k hk
      simp [hst, GoMap.get_after_del, hk]
    · intro q hq h1 h2
      rw [hnodes q h1 h2]
      have := osRemoveAll_nodes w.fs _ q hq
      rw [hr] at this
      exact this
  · simp [hr] at h

theorem removeSubject_cascades_witness :
    SubjectExists world2.st 1 = true ∧ RemoveSubject world2 1 = some (world3, none) ∧
    (SubjectExists world3.st 1 = false ∧ ListEntries world3.st 1 = [] ∧
      (∀ e, EntryExists world3.st 1 e = false) ∧
      (∀ q, subjectDir world2.st.storageRoot 1 <+: q → world3.fs.nodes q = none) ∧
      (∀ k, k ≠ 1 →
        GoMap.get world3.st.subjectsMetadata.Subjects k
          = GoMap.get world2.st.subjectsMetadata.Subjects k ∧
        GoMap.get world3.st.entriesMetadata.Entries k
          = GoMap.get world2.st.entriesMetadata.Entries k) ∧
      (∀ q, ¬ subjectDir world2.st.storageRoot 1 <+: q →
        q ≠ subjectsPath world2.st.storageRoot →
        q ≠ entriesPath world2.st.storageRoot → world3.fs.nodes q = world2.fs.nodes q)) :=
  ⟨by decide, rfl, removeSubject_cascades world2 world3 1 (by decide) rfl⟩


/-! ## Creation of an entry -/

theorem osMkdirAll_nodes (fs : FS) (p q : Path) (h : ¬ q <+: p) :
    (osMkdirAll fs p).1.nodes q = fs.nodes q := by
  unfold osMkdirAll
  split
  · rfl
  · split
    · rfl
    · simp [h]

theorem osOpenFileCreate_ok (fs : FS) (p : Path) (h : (osOpenFileCreate fs p).2 = none)
    (hp : fs.isFile p = false) :
    (osOpenFileCreate fs p).1.nodes p = some (.file (.text [])) := by
  by_cases hf : fs.fails = true
  · simp [osOpenFileCreate, hf] at h
  · cases hn : fs.nodes p with
    | none =>
      simp only [osOpenFileCreate, hf, hn, if_false] at h ⊢
      exact storeFile_ok fs p _ h
    | some n =>
      cases n with
      | dir =>
        simp only [osOpenFileCreate, hf, hn, if_false] at h ⊢
        exact storeFile_ok fs p _ h
      | file d => simp [FS.isFile, hn] at hp

theorem contentPath_not_prefix_entryDir (root : Path) (a b : UUID) :
    ¬ contentPath root a b <+: entryDir root a b := by
  intro h
  have := h.length_le
  simp [contentPath] at this

/-- Two further worlds in which subject `1` exists, the generated ID `7` is
unused under it and no I/O failure is scheduled.  In `worldA`, which
`NewStorage` builds from a tree whose `entries.json` is missing, the subject
has no entry map and `NewEntry` faults.  In `worldStale` a body file is
already at the place of the new entry: `NewEntry` returns no error and the
file keeps its contents `old`. -/
theorem newEntry_on_diskA_and_stale_body :
    (NewStorage diskA ["data"] = (worldA.fs, .ok worldA.st) ∧
      SubjectExists worldA.st 1 = true ∧ EntryExists worldA.st 1 7 = false ∧
      worldA.fs.faults = [] ∧ NewEntry worldA 1 "Notes" 7 100 101 = none) ∧
    (SubjectExists worldStale.st 1 = true ∧ EntryExists worldStale.st 1 7 = false ∧
      NewEntry worldStale 1 "Notes" 7 100 101 = some (worldStaleAfter, 7, none) ∧
      worldStaleAfter.fs.nodes (contentPath ["data"] 1 7) = some (.file (.text "old")) ∧
      worldStaleAfter.fs.nodes (contentPath ["data"] 1 7) ≠ some (.file (.text []))) :=
  ⟨⟨rfl, by decide, by decide, rfl, rfl⟩,
   ⟨by decide, by decide, rfl, rfl, by
      have h : worldStaleAfter.fs.nodes (contentPath ["data"] 1 7)
          = some (.file (.text "old")) := rfl
      rw [h]
      intro e
      injection e with e
      injection e with e
      injection e with e
      exact absurd e (by decide)⟩⟩

/-- For every world in which the subject exists and has an entry map, the
generated entry ID is unused under it and no regular file sits yet at the
body path, `NewEntry` returns; and when it returns no error, it
returns the generated ID, the subject lists exactly one entry more, the new
entry carries that ID, the title and the two clock readings, every other
entry reads as before, the subjects metadata is unchanged, and the body file
exists and is empty. -/
theorem newEntry_adds_one (w : World) (subjectID : UUID) (title : GoString) (id : UUID)
    (now1 now2 : Time) (inner : Items Entry)
    (hs : SubjectExists w.st subjectID = true)
    (hin : GoMap.get w.st.entriesMetadata.Entries subjectID = some (some inner))
    (hfresh : Items.get inner id = none)
    (hnofile : w.fs.isFile (contentPath w.st.storageRoot subjectID id) = false) :
    (∃ r, NewEntry w subjectID title id now1 now2 = some r) ∧
      ∀ w' ret, NewEntry w subjectID title id now1 now2 = some (w', ret, none) →
        ret = id ∧
        (ListEntries w'.st subjectID).length = (ListEntries w.st subjectID).length + 1 ∧
        getEntry w'.st.entriesMetadata.Entries subjectID id = some ⟨id, title, now1, now2⟩ ∧
        (∀ s i, ¬ (s = subjectID ∧ i = id) →
          getEntry w'.st.entriesMetadata.Entries s i = getEntry w.st.entriesMetadata.Entries s i) ∧
        w'.st.subjectsMetadata = w.st.subjectsMetadata ∧
        w'.fs.nodes (contentPath w.st.storageRoot subjectID id) = some (.file (.text [])) := by
  cases hE : w.st.entriesMetadata.Entries with
  | none => simp [hE, GoMap.get] at hin
  | some outer =>
    have hget : Items.get outer subjectID = some (some inner) := by
      simpa [hE, GoMap.get] using hin
    have hset : setEntry w.st.entriesMetadata.Entries subjectID id ⟨id, title, now1, now2⟩
        = some (some (Items.put subjectID (some (Items.put id ⟨id, title, now1, now2⟩ inner))
            outer)) := by
      simp [setEntry, hE, hget]
    have hmap := newEntry_st w subjectID title id now1 now2 _ hs hset
    constructor
    · cases hr : NewEntry w subjectID title id now1 now2 with
      | none => simp [hr] at hmap
      | some r => exact ⟨r, rfl⟩
    · intro w' ret h
      have hst : w'.st = ⟨w.st.storageRoot, w.st.subjectsMetadata,
          ⟨some (Items.put subjectID (some (Items.put id ⟨id, title, now1, now2⟩ inner))
            outer)⟩⟩ ∧ ret = id := by
        simpa [h] using hmap
      obtain ⟨hst, hret⟩ := hst
      have hs' : SubjectExists w'.st subjectID = true := by
        simpa [SubjectExists, hst] using hs
      refine ⟨hret, ?_, ?_, ?_, ?_, ?_⟩
      · have e1 : ListEntries w.st subjectID = Items.values inner := by
          simp [ListEntries, hs, hin, GoMap.values]
        have hin' : GoMap.get w'.st.entriesMetadata.Entries subjectID
            = some (some (Items.put id ⟨id, title, now1, now2⟩ inner)) := by
          rw [hst]
          simp [GoMap.get, Items.get_put]
        have e2 : ListEntries w'.st subjectID
            = Items.values (Items.put id ⟨id, title, now1, now2⟩ inner) := by
          simp [ListEntries, hs', hin', GoMap.values]
        rw [e1, e2]
        simp [Items.values, Items.length_put id _ inner hfresh]
      · rw [hst]
        simp [getEntry_setEntry _ _ _ _ _ hset]
      · intro s i hne
        rw [hst]
        simp [getEntry_setEntry _ _ _ _ _ hset, hne, hE]
      · rw [hst]
      · simp only [NewEntry, hs, hset, Bool.not_true, Bool.false_eq_true, if_false] at h
        rcases h1 : osMkdirAll w.fs (entryDir w.st.storageRoot subjectID id) with ⟨fs1, _ | e1⟩
        · rcases h2 : osOpenFileCreate fs1 (contentPath w.st.storageRoot subjectID id)
            with ⟨fs2, _ | e2⟩
          · simp only [h1, h2, Option.some.injEq, Prod.mk.injEq] at h
            have hn := flushMetadata_nodes
              ⟨⟨w.st.storageRoot, w.st.subjectsMetadata,
                ⟨some (Items.put subjectID (some (Items.put id ⟨id, title, now1, now2⟩ inner))
                  outer)⟩⟩, fs2⟩ (contentPath w.st.storageRoot subjectID id)
              (Ne.symm (contentPath_ne_subjectsPath _ _ _))
              (Ne.symm (contentPath_ne_entriesPath _ _ _))
            rw [h.1] at hn
            rw [hn]
            have hm := osMkdirAll_nodes w.fs (entryDir w.st.storageRoot subjectID id)
              (contentPath w.st.storageRoot subjectID id)
              (contentPath_not_prefix_entryDir _ _ _)
            rw [h1] at hm
            have hfile : fs1.isFile (contentPath w.st.storageRoot subjectID id) = false := by
              unfold FS.isFile at hnofile ⊢
              rw [hm]
              exact hnofile
            have := osOpenFileCreate_ok fs1 _ (by rw [h2]) hfile
            rw [h2] at this
            exact this
          · simp [h1, h2] at h
        · simp [h1] at h

theorem newEntry_adds_one_witness :
    SubjectExists world1.st 1 = true ∧
    GoMap.get world1.st.entriesMetadata.Entries 1 = some (some []) ∧
    world1.fs.isFile (contentPath world1.st.storageRoot 1 7) = false ∧
    NewEntry world1 1 "Notes" 7 100 101 = some (world2, 7, none) ∧
    (7 = 7 ∧
      (ListEntries world2.st 1).length = (ListEntries world1.st 1).length + 1 ∧
      getEntry world2.st.entriesMetadata.Entries 1 7 = some ⟨7, "Notes", 100, 101⟩ ∧
      (∀ s i, ¬ (s = 1 ∧ i = 7) →
        getEntry world2.st.entriesMetadata.Entries s i
          = getEntry world1.st.entriesMetadata.Entries s i) ∧
      world2.st.subjectsMetadata = world1.st.subjectsMetadata ∧
      world2.fs.nodes (contentPath world1.st.storageRoot 1 7) = some (.file (.text []))) :=
  ⟨by decide, rfl, rfl, newEntry_world1,
   (newEntry_adds_one world1 1 "Notes" 7 100 101 [] (by decide) rfl rfl rfl).2 world2 7
     newEntry_world1⟩

/-- C6, at the failing input: a `NewSubject` whose write of `entries.json`
fails returns that error with `subjects.json` already written; the restart
(`NewStorage` on the same root) succeeds and loads the subject without an
entry map; in that world the subject exists, the generated ID `7` is unused
and no I/O failure is scheduled, yet `NewEntry` faults on the write into the
nil map.  In `world1`, where `NewSubject` flushed both files, the same call
returns the ID, the subject lists one entry more and the body file exists and
is empty. -/
theorem newEntry_faults_after_failed_flush :
    (NewSubject world0EntriesWriteFails 1 "Math" "desc"
        = some (worldHalfFlushed, 1, some (.os .EACCES)) ∧
      worldHalfFlushed.fs.nodes (entriesPath ["data"]) = none ∧
      NewStorage worldHalfFlushed.fs ["data"] = (worldRestarted.fs, .ok worldRestarted.st) ∧
      worldRestarted.st = ⟨["data"], ⟨some [(1, ⟨1, "Math", "desc"⟩)]⟩, ⟨some []⟩⟩ ∧
      SubjectExists worldRestarted.st 1 = true ∧ EntryExists worldRestarted.st 1 7 = false ∧
      worldRestarted.fs.faults = [] ∧
      NewEntry worldRestarted 1 "Notes" 7 100 101 = none) ∧
    (SubjectExists world1.st 1 = true ∧ EntryExists world1.st 1 7 = false ∧
      NewEntry world1 1 "Notes" 7 100 101 = some (world2, 7, none) ∧
      (ListEntries world2.st 1).length = (ListEntries world1.st 1).length + 1 ∧
      getEntry world2.st.entriesMetadata.Entries 1 7 = some ⟨7, "Notes", 100, 101⟩ ∧
      world2.fs.nodes (contentPath ["data"] 1 7) = some (.file (.text []))) :=
  ⟨⟨rfl, rfl, rfl, rfl, by decide, by decide, rfl, rfl⟩,
   ⟨by decide, by decide, rfl, by decide, rfl, rfl⟩⟩

/-! ## Initialisation on an existing root -/

/-- C9, at the failing input: on a tree where the root `data` exists as an
empty directory, `NewStorage` makes neither `data/entries` nor
`data/metadata` and returns the error of writing `entries.json` into the
missing directory; on a tree where `data` does not exist, it makes the root
and both subdirectories and returns the empty storage. -/
theorem newStorage_existing_root_lacks_subdirs :
    ((NewStorage diskRootOnly ["data"]).2 = .error (.os .ENOENT) ∧
      (NewStorage diskRootOnly ["data"]).1.nodes ["data", "entries"] = none ∧
      (NewStorage diskRootOnly ["data"]).1.nodes ["data", "metadata"] = none) ∧
    ((NewStorage diskFresh ["data"]).2 = .ok (emptyStorage ["data"]) ∧
      (NewStorage diskFresh ["data"]).1.nodes ["data"] = some .dir ∧
      (NewStorage diskFresh ["data"]).1.nodes ["data", "entries"] = some .dir ∧
      (NewStorage diskFresh ["data"]).1.nodes ["data", "metadata"] = some .dir) :=
  ⟨⟨rfl, rfl, rfl⟩, ⟨rfl, rfl, rfl, rfl⟩⟩

/-! ## Order of persistence and file-system action -/

theorem updateEntryBody_flushes_first (w w' : World) (subjectID id : UUID) (data : GoString)
    (now : Time) (err : Option Error)
    (h : UpdateEntryBody w subjectID id data now = some (w', err))
    (hs : SubjectExists w.st subjectID = true) (he : EntryExists w.st subjectID id = true)
    (hflush : (flushMetadata ⟨w'.st, w.fs⟩).2 = none) : Mirrored w' := by
  simp only [UpdateEntryBody, hs, he, Bool.not_true, Bool.false_eq_true, if_false] at h
  split at h
  · simp at h
  · rename_i em hset
    have hst := flushMetadata_st ⟨{ w.st with entriesMetadata := ⟨em⟩ }, w.fs⟩
    split at h
    · rename_i w2 e hf2
      simp only [Option.some.injEq, Prod.mk.injEq] at h
      rw [hf2] at hst
      simp only at hst
      rw [h.1] at hst
      rw [← hst] at hf2
      rw [hf2] at hflush
      simp at hflush
    · rename_i w2 hf2
      obtain ⟨hm, hst2⟩ := flushMetadata_eq_ok hf2
      have b1 := osWriteFile_nodes_ne w2.fs (contentPath w.st.storageRoot subjectID id)
        (.text data) _ (contentPath_ne_subjectsPath w.st.storageRoot subjectID id)
      have b2 := osWriteFile_nodes_ne w2.fs (contentPath w.st.storageRoot subjectID id)
        (.text data) _ (contentPath_ne_entriesPath w.st.storageRoot subjectID id)
      have hr : w2.st.storageRoot = w.st.storageRoot := by rw [hst2]
      split at h <;> rename_i fs2 hw <;>
        simp only [Option.some.injEq, Prod.mk.injEq] at h <;>
        rw [← h.1] <;> rw [hw] at b1 b2 <;> simp only [Mirrored, hr] at hm ⊢ <;>
        exact ⟨b1.trans hm.1, b2.trans hm.2⟩

theorem deleteEntry_flushes_first (w w' : World) (subjectID id : UUID) (err : Option Error)
    (h : DeleteEntry w subjectID id = some (w', err))
    (hs : SubjectExists w.st subjectID = true) (he : EntryExists w.st subjectID id = true)
    (hflush : (flushMetadata ⟨w'.st, w.fs⟩).2 = none) : Mirrored w' := by
  simp only [DeleteEntry, hs, he, Bool.not_true, Bool.false_eq_true, if_false] at h
  have hst := flushMetadata_st
    ⟨{ w.st with entriesMetadata := ⟨delEntry w.st.entriesMetadata.Entries subjectID id⟩ }, w.fs⟩
  split at h
  · rename_i w2 e hf2
    simp only [Option.some.injEq, Prod.mk.injEq] at h
    rw [hf2] at hst
    simp only at hst
    rw [h.1] at hst
    rw [← hst] at hf2
    rw [hf2] at hflush
    simp at hflush
  · rename_i w2 hf2
    obtain ⟨hm, hst2⟩ := flushMetadata_eq_ok hf2
    have b1 := osRemoveAll_nodes w2.fs (entryDir w.st.storageRoot subjectID id)
      _ (entryDir_not_prefix_subjectsPath w.st.storageRoot subjectID id)
    have b2 := osRemoveAll_nodes w2.fs (entryDir w.st.storageRoot subjectID id)
      _ (entryDir_not_prefix_entriesPath w.st.storageRoot subjectID id)
    have hr : w2.st.storageRoot = w.st.storageRoot := by rw [hst2]
    split at h <;> rename_i fs2 hw <;>
      simp only [Option.some.injEq, Prod.mk.injEq] at h <;>
      rw [← h.1] <;> rw [hw] at b1 b2 <;> simp only [Mirrored, hr] at hm ⊢ <;>
      exact ⟨b1.trans hm.1, b2.trans hm.2⟩

/-- C10, at the failing inputs: in `world2` (subject `1` with entry `7`, both
JSON files in step with the maps) with an I/O failure scheduled for the next
file-system call, `RemoveSubject(1)` returns the error of `os.RemoveAll` with
the subject gone from memory while `subjects.json` still lists it, and
`NewEntry(1, "More")` returns the error of `os.MkdirAll` with entry `8` in
memory while `entries.json` still lists entry `7` only: in both the JSON
files are not the encoding of the mutated maps. -/
theorem action_failure_leaves_json_stale :
    (RemoveSubject world2Failing 1 = some (worldRemoveFailed, some (.os .EACCES)) ∧
      SubjectExists worldRemoveFailed.st 1 = false ∧
      worldRemoveFailed.fs.nodes (subjectsPath ["data"])
        = some (.file (.doc (marshalSubjects ⟨some [(1, ⟨1, "Math", "desc"⟩)]⟩))) ∧
      ¬ Mirrored worldRemoveFailed) ∧
    (NewEntry world2Failing 1 "More" 8 300 301
        = some (worldNewEntryFailed, 8, some (.os .EACCES)) ∧
      EntryExists worldNewEntryFailed.st 1 8 = true ∧
      worldNewEntryFailed.fs.nodes (entriesPath ["data"])
        = some (.file (.doc (marshalEntries ⟨some [(1, some [(7, ⟨7, "Notes", 100, 101⟩)])]⟩))) ∧
      ¬ Mirrored worldNewEntryFailed) := by
  refine ⟨⟨rfl, by decide, rfl, ?_⟩, ⟨rfl, by decide, rfl, ?_⟩⟩
  · intro h
    have h1 := h.1
    have e1 : worldRemoveFailed.fs.nodes (subjectsPath worldRemoveFailed.st.storageRoot)
        = some (.file (.doc (marshalSubjects ⟨some [(1, ⟨1, "Math", "desc"⟩)]⟩))) := rfl
    have e2 : worldRemoveFailed.st.subjectsMetadata = ⟨some []⟩ := rfl
    rw [e1, e2] at h1
    simp [marshalSubjects, encodeMap] at h1
  · intro h
    have h1 := h.2
    have e1 : worldNewEntryFailed.fs.nodes (entriesPath worldNewEntryFailed.st.storageRoot)
        = some (.file (.doc (marshalEntries
            ⟨some [(1, some [(7, ⟨7, "Notes", 100, 101⟩)])]⟩))) := rfl
    have e2 : worldNewEntryFailed.st.entriesMetadata
        = ⟨some [(1, some [(7, ⟨7, "Notes", 100, 101⟩), (8, ⟨8, "More", 300, 301⟩)])]⟩ := rfl
    rw [e1, e2] at h1
    simp [marshalEntries, encodeMap] at h1

/-! ## Loading files that hold the empty object -/

theorem reloadMetadata_empty_objects (fs : FS) (root : Path) (hf : fs.faults = [])
    (hs : fs.nodes (subjectsPath root) = some (.file (.doc (.obj []))))
    (he : fs.nodes (entriesPath root) = some (.file (.doc (.obj [])))) :
    reloadMetadata fs root = (fs.next.next.next.next, .ok (⟨none⟩, ⟨none⟩)) := by
  have hf2 : fs.next.next.faults = [] := FS.next_faults_nil _ (FS.next_faults_nil _ hf)
  have u1 : unmarshalSubjects (.obj []) = .ok ⟨none⟩ := rfl
  have u2 : unmarshalEntries (.obj []) = .ok ⟨none⟩ := rfl
  have r1 : readEntries fs root = (fs.next.next, .ok (some ⟨none⟩, ⟨none⟩)) := by
    simp [readEntries, osOpen_found fs _ _ hf he,
      ioReadAll_file fs.next _ (fs.next_faults_nil hf), unmarshalSubjectsData,
      unmarshalEntriesData, u1, u2]
  have r2 : readSubjects fs.next.next root = (fs.next.next.next.next, .ok ⟨none⟩) := by
    have hs2 : fs.next.next.nodes (subjectsPath root) = some (.file (.doc (.obj []))) := hs
    simp [readSubjects, osOpen_found fs.next.next _ _ hf2 hs2,
      ioReadAll_file fs.next.next.next _ (FS.next_faults_nil _ hf2), unmarshalSubjectsData, u1]
  simp [reloadMetadata, r1, r2]

theorem newStorage_empty_objects (fs : FS) (root : Path) (hf : fs.faults = [])
    (hr : fs.nodes root = some .dir) (hd : fs.nodes (root ++ ["metadata"]) = some .dir)
    (hs : fs.nodes (subjectsPath root) = some (.file (.doc (.obj []))))
    (he : fs.nodes (entriesPath root) = some (.file (.doc (.obj [])))) :
    (NewStorage fs root).2 = .ok ⟨root, ⟨none⟩, ⟨none⟩⟩ := by
  have hf1 : fs.next.faults = [] := FS.next_faults_nil _ hf
  have hstat : osStat fs root = (fs.next, .ok .dir) := by
    simp [osStat, FS.fails_nil _ hf, hr]
  have hre := reloadMetadata_empty_objects fs.next root hf1 hs he
  have hf5 : fs.next.next.next.next.next.faults = [] :=
    FS.next_faults_nil _ (FS.next_faults_nil _ (FS.next_faults_nil _ (FS.next_faults_nil _ hf1)))
  have hfl := flushMetadata_over_files ⟨⟨root, ⟨none⟩, ⟨none⟩⟩, fs.next.next.next.next.next⟩
    hf5 _ _ hs he hd
  have hst := flushMetadata_st ⟨⟨root, ⟨none⟩, ⟨none⟩⟩, fs.next.next.next.next.next⟩
  simp only [NewStorage, hstat, newStorageLoad, Node.IsDir]
  simp only [Bool.not_true, Bool.false_eq_true, if_false, hre]
  rcases hx : flushMetadata ⟨⟨root, ⟨none⟩, ⟨none⟩⟩, fs.next.next.next.next.next⟩
    with ⟨w2, _ | e⟩
  · rw [hx] at hst
    simpa using hst
  · rw [hx] at hfl
    simp at hfl

theorem newSubject_nil_map (w : World) (id : UUID) (name description : GoString)
    (h : w.st.subjectsMetadata.Subjects = none ∨ w.st.entriesMetadata.Entries = none) :
    NewSubject w id name description = none := by
  unfold NewSubject
  rcases h with h | h
  · simp [h]
  · cases hs : w.st.subjectsMetadata.Subjects <;> simp [h]

/-- C11, at the failing input: on a tree whose `subjects.json` and
`entries.json` both hold `{}`, `NewStorage` returns without error a storage
whose two maps are nil, and the following `NewSubject` faults on the write
into the nil map.  A first `NewStorage` on a fresh root whose flush fails
leaves exactly such a tree, so the second start ends in the same fault.  When
the two files are missing instead, the loader makes both maps and the
following `NewSubject` completes. -/
theorem empty_object_files_give_nil_maps :
    (NewStorage diskEmptyObjects ["data"] = (worldEmptyObjects.fs, .ok worldEmptyObjects.st) ∧
      worldEmptyObjects.st = ⟨["data"], ⟨none⟩, ⟨none⟩⟩ ∧
      NewSubject worldEmptyObjects 1 "Math" "desc" = none) ∧
    ((NewStorage diskFreshFlushFails ["data"]).2 = .error (.os .EACCES) ∧
      (NewStorage diskFreshFlushFails ["data"]).1.nodes (subjectsPath ["data"])
        = some (.file (.doc (.obj []))) ∧
      (NewStorage diskFreshFlushFails ["data"]).1.nodes (entriesPath ["data"])
        = some (.file (.doc (.obj []))) ∧
      NewStorage (NewStorage diskFreshFlushFails ["data"]).1 ["data"]
        = (worldSecondStart.fs, .ok worldSecondStart.st) ∧
      worldSecondStart.st = ⟨["data"], ⟨none⟩, ⟨none⟩⟩ ∧
      NewSubject worldSecondStart 1 "Math" "desc" = none) ∧
    ((NewStorage diskFresh ["data"]).2 = .ok (emptyStorage ["data"]) ∧
      (NewSubject ⟨emptyStorage ["data"], (NewStorage diskFresh ["data"]).1⟩
        1 "Math" "desc").isSome = true) :=
  ⟨⟨rfl, rfl, rfl⟩, ⟨rfl, rfl, rfl, rfl, rfl, rfl⟩, ⟨rfl, rfl⟩⟩

end Edutrack
